import Mathlib

/-!
Verification development for the cads-fmi-demo repository.

The definitions below are a shallow embedding of the repository's runtime
kernel: the FMI 2.0 co-simulation driver (`runner_bridge.cpp`), the workflow
executor (`workflow.go`) and the two cgo bindings of `fmi.Run`.  IEEE binary64
doubles are embedded as rational numbers: a double value is the exact rational
it denotes, and the two rounding operations that matter to the claims
(`%.9g` formatting, `strtod` decimal-to-double conversion) are modelled as
round-to-nearest on the corresponding rational grids.
-/

set_option exponentiation.threshold 1100

deriving instance DecidableEq for Except

/-- Decide rational equality through the `num`/`den` projections (the
instance inherited from the order structure reduces poorly in the kernel). -/
instance (priority := 2000) ratDecEqFast : DecidableEq ℚ := fun a b =>
  if h : a.num = b.num ∧ a.den = b.den then
    .isTrue (Rat.ext h.1 h.2)
  else
    .isFalse (fun he => h ⟨congrArg Rat.num he, congrArg Rat.den he⟩)

namespace CadsFmi

/-! ## Numeric layer: rationals standing for binary64 doubles -/

/-- Exponentiation by squaring with explicit fuel (so that kernel reduction
stays shallow); `qpowAux b n fuel = b ^ n` whenever `n < 2 ^ fuel`. -/
def qpowAux (b : ℚ) (n : ℕ) : ℕ → ℚ
  | 0 => 1
  | fuel + 1 =>
    if n = 0 then 1
    else (if n % 2 = 1 then b else 1) * qpowAux (b * b) (n / 2) fuel

/-- `b ^ n` for a natural exponent, computed by squaring
(`n` is its own fuel bound, since `n < 2 ^ n`). -/
def qpowN (b : ℚ) (n : ℕ) : ℚ := qpowAux b n n

/-- `b ^ e` for an integer exponent (with `b ^ (-n) = 1 / b ^ n`). -/
def qpowZ (b : ℚ) (e : ℤ) : ℚ :=
  if 0 ≤ e then qpowN b e.toNat else 1 / qpowN b (-e).toNat

/-- Fuel-driven search for the base-`b` exponent of a positive rational:
starting from exponent `e`, move towards the `e` with `b ^ e ≤ q < b ^ (e+1)`. -/
def expSearch (b q : ℚ) : ℕ → ℤ → ℤ
  | 0, e => e
  | fuel + 1, e =>
    if qpowZ b (e + 1) ≤ q then expSearch b q fuel (e + 1)
    else if q < qpowZ b e then expSearch b q fuel (e - 1)
    else e

/-- Decimal exponent of `|q|` (position of the leading significant digit).
The fuel 700 covers every finite double. -/
def decExp (q : ℚ) : ℤ := expSearch 10 |q| 700 0

/-- Binary exponent of `|q|`: the `e` with `2 ^ e ≤ |q| < 2 ^ (e+1)`.
The fuel 2200 covers every finite double. -/
def binExp (q : ℚ) : ℤ := expSearch 2 |q| 2200 0

/-- Round `q` to the grid of integer multiples of `b ^ e`
(round to nearest; ties go up — the claims never hit a tie). -/
def roundToGrid (b : ℚ) (e : ℤ) (q : ℚ) : ℚ :=
  if 0 ≤ e then
    ((round (q / qpowN b e.toNat) : ℤ) : ℚ) * qpowN b e.toNat
  else
    ((round (q * qpowN b (-e).toNat) : ℤ) : ℚ) / qpowN b (-e).toNat

/-- Round a rational to the nearest binary64 double, modelled as rounding the
53-bit significand.  This is the conversion `strtod` performs after reading
the decimal digits. -/
def parseDouble (q : ℚ) : ℚ :=
  if q = 0 then 0 else roundToGrid 2 (binExp q - 52) q

/-- Round a rational to `n` significant decimal digits — the value denoted by
the output of printf `%.<n>g` on a double whose exact value is `q`. -/
def roundSig (n : ℕ) (q : ℚ) : ℚ :=
  if q = 0 then 0 else roundToGrid 10 (decExp q - ((n : ℤ) - 1)) q

/-- `q` is the exact value of some (normal or subnormal, finite) binary64. -/
def IsDouble (q : ℚ) : Prop :=
  ∃ m e : ℤ, |m| < 2 ^ 53 ∧ -1074 ≤ e ∧ e ≤ 971 ∧ q = (m : ℚ) * (2 : ℚ) ^ e

/-- C `llround`: round to nearest integer, ties away from zero. -/
def llround (q : ℚ) : ℤ :=
  if 0 ≤ q then ⌊q + 1 / 2⌋ else -⌊-q + 1 / 2⌋

/-- C cast of a wide integer to `int32` (modular wrap-around). -/
def toInt32 (i : ℤ) : ℤ := (i + 2 ^ 31) % 2 ^ 32 - 2 ^ 31

/-! ## A model of C `strtod`, and the driver's `parseNumber`

`runner_bridge.cpp` parses every textual start value with `std::strtod` and
then checks `end`, `*end == 0` and `std::isfinite`.  `strtod` is the C
standard library; its ISO C semantics for decimal inputs are modelled here:
skip `isspace` characters, read an optional sign, then either a decimal
significand with optional exponent (longest match; a dangling `e` is not
consumed) or the keywords `inf`/`infinity`/`nan` (case-insensitive), and when
no conversion can be performed return value `0` with the end pointer equal to
the start of the input.  Hexadecimal significands and locale-specific forms
are outside the subset the repository feeds it and are not modelled. -/

/-- The `isspace` characters of the C locale. -/
def isSpaceChar (c : Char) : Bool :=
  c == ' ' || c == '\t' || c == '\n' || c == '\r' || c == '\x0b' || c == '\x0c'

/-- Decimal digit value of a character, if it is a digit. -/
def digitVal (c : Char) : Option ℕ :=
  if '0' ≤ c ∧ c ≤ '9' then some (c.toNat - '0'.toNat) else none

/-- Split a character list into its leading run of decimal digits and the rest. -/
def takeDigits : List Char → List ℕ × List Char
  | [] => ([], [])
  | c :: rest =>
    match digitVal c with
    | some d =>
      let (ds, r) := takeDigits rest
      (d :: ds, r)
    | none => ([], c :: rest)

/-- Value of a digit sequence read in base 10. -/
def digitsToNat (ds : List ℕ) : ℕ := ds.foldl (fun a d => 10 * a + d) 0

/-- Multiply a rational by `10 ^ e` for a signed `e`. -/
def scaleByPow10 (q : ℚ) (e : ℤ) : ℚ := q * qpowZ 10 e

/-- Read an optional exponent part after the significand.  `noExp` is the
input position before the `e`/`E`; if no digit follows, `strtod` leaves the
exponent unconsumed. -/
def readExponent (mant : ℚ) (noExp rest : List Char) : ℚ × List Char :=
  let (sgn, rest2) :=
    match rest with
    | '+' :: r => ((1 : ℤ), r)
    | '-' :: r => ((-1 : ℤ), r)
    | r => ((1 : ℤ), r)
  let (eds, rest3) := takeDigits rest2
  if eds.isEmpty then (mant, noExp)
  else (scaleByPow10 mant (sgn * (digitsToNat eds : ℤ)), rest3)

/-- Read an unsigned decimal significand with optional fraction and exponent.
Returns `none` when no digit occurs on either side of the point. -/
def readDecimal (cs : List Char) : Option (ℚ × List Char) :=
  let (ip, r1) := takeDigits cs
  let (fp, r2) :=
    match r1 with
    | '.' :: rest => takeDigits rest
    | _ => ([], r1)
  if ip.isEmpty && fp.isEmpty then none
  else
    let mant : ℚ := (digitsToNat (ip ++ fp) : ℚ) / qpowN 10 fp.length
    match r2 with
    | [] => some (mant, [])
    | c :: rest =>
      if c == 'e' || c == 'E' then some (readExponent mant r2 rest)
      else some (mant, r2)

/-- Result classification of a `strtod` conversion. -/
inductive StrtodVal where
  | fin (q : ℚ)
  | posInf
  | negInf
  | nan
  deriving DecidableEq

/-- Case-insensitive keyword match; returns the remaining input on success. -/
def matchKeyword : List Char → List Char → Option (List Char)
  | rest, [] => some rest
  | [], _ :: _ => none
  | c :: rest, k :: ks => if c.toLower == k then matchKeyword rest ks else none

/-- `strtod` on a character list: the converted value and the remaining
(unconsumed) characters.  When no conversion can be performed the whole input
is returned, matching C's `end = nptr`. -/
def strtodCore (cs : List Char) : StrtodVal × List Char :=
  let ws := cs.dropWhile (fun c => isSpaceChar c)
  let (neg, afterSign) :=
    match ws with
    | '-' :: r => (true, r)
    | '+' :: r => (false, r)
    | r => (false, r)
  match readDecimal afterSign with
  | some (q, rest) => (.fin (if neg then -q else q), rest)
  | none =>
    match matchKeyword afterSign ['i', 'n', 'f', 'i', 'n', 'i', 't', 'y'] with
    | some rest => (if neg then .negInf else .posInf, rest)
    | none =>
      match matchKeyword afterSign ['i', 'n', 'f'] with
      | some rest => (if neg then .negInf else .posInf, rest)
      | none =>
        match matchKeyword afterSign ['n', 'a', 'n'] with
        | some rest => (.nan, rest)
        | none => (.fin 0, cs)

/-- `strtod` on a string: converted value and number of characters consumed
(the offset of the end pointer). -/
def strtodModel (s : String) : StrtodVal × ℕ :=
  let (v, rest) := strtodCore s.data
  (v, s.data.length - rest.length)

/-- Smallest magnitude whose conversion to binary64 overflows to infinity
(up to one ulp; no claim depends on the exact threshold). -/
def doubleOverflow : ℚ := (((2 : ℕ) ^ 1024 : ℕ) : ℚ)

/-- `parseNumber` from `runner_bridge.cpp`: `strtod` the whole input and fail
unless the conversion consumed every character (`*end == 0`) and produced a
finite value.  The decimal-to-double rounding of `strtod` is `parseDouble`;
a decimal magnitude at or beyond `2 ^ 1024` overflows to infinity and is
therefore rejected as non-finite. -/
def parseNumber (s : String) : Except String ℚ :=
  let (v, n) := strtodModel s
  if n ≠ s.length then .error ("Unable to parse numeric value from " ++ s)
  else
    match v with
    | .fin q =>
      if doubleOverflow ≤ |q| then
        .error ("Unable to parse numeric value from " ++ s)
      else .ok (parseDouble q)
    | _ => .error ("Unable to parse numeric value from " ++ s)

/-! ## Delivered-value chain of the codec (workflow encode → driver parse) -/

/-- The rational value denoted by the output of Go `formatFloat`
(`fmt.Sprintf` with verb `%.9g` in `workflow.go`) on a double of exact value
`q`: the input rounded to 9 significant decimal digits.  The textual rendering
itself is not modelled; theorems about the codec work with the denoted value. -/
def formatFloatValue (q : ℚ) : ℚ := roundSig 9 q

/-- Value delivered to `fmi2_import_set_real` for a start binding whose text
denotes the decimal value `q` (`applyStartValueFmi2`, real case): `strtod`
rounds the decimal to the nearest double. -/
def deliveredReal (q : ℚ) : ℚ := parseDouble q

/-- Value delivered to `fmi2_import_set_integer`: `llround` of the parsed
double, cast to `int32` (`applyStartValueFmi2`, integer case). -/
def deliveredInt (q : ℚ) : ℤ := toInt32 (llround (parseDouble q))

/-- Value delivered to `fmi2_import_set_boolean`: the parsed double compared
against zero (`applyStartValueFmi2`, boolean case). -/
def deliveredBool (q : ℚ) : Bool := decide (parseDouble q ≠ 0)

/-! ## FMI 2.0 driver (`runner_bridge.cpp`)

The driver is embedded as a function of the configuration and of an *FMU
behaviour model*: the answers the FMIL calls would give (declared variables,
default experiment, and the status of each imperative call).  Every FMIL call
the source makes is recorded as an event, so resource-lifecycle claims are
statements about the produced event trace.  The FMI 3.0 path of the source
(`runFmi3`) is structurally identical and is not separately embedded; the
claims cite the FMI 2.0 symbols. -/

/-- `fmi2_causality_enu_t`. -/
inductive Causality2 where
  | parameterC
  | calculatedParameter
  | inputC
  | output
  | localC
  | independent
  | unknownC
  deriving DecidableEq

/-- The FMI 2.0 base types the source distinguishes (`default` covers
string/enum). -/
inductive BaseType2 where
  | real
  | int
  | bool
  | other
  deriving DecidableEq

/-- One declared model variable of the FMU. -/
structure FmuVar2 where
  name : String
  causality : Causality2
  baseType : BaseType2
  vr : ℕ
  deriving DecidableEq

/-- Behaviour model of one FMI 2.0 FMU: its declared variables and default
experiment, plus the status every FMIL call would return and the values the
getters would produce. -/
structure Fmu2Model where
  parseXmlOk : Bool
  kindIsCS : Bool
  createDllOk : Bool
  instantiateOk : Bool
  vars : List FmuVar2
  defaultStart : Option ℚ
  defaultStop : Option ℚ
  defaultStep : Option ℚ
  defaultTolerance : Option ℚ
  setupOk : Bool
  enterInitOk : Bool
  setRealOk : ℕ → ℚ → Bool
  setIntOk : ℕ → ℤ → Bool
  setBoolOk : ℕ → Bool → Bool
  exitInitOk : Bool
  doStepOk : ℚ → ℚ → Bool
  getReal : ℕ → ℚ
  getInt : ℕ → ℤ
  getBool : ℕ → Bool

/-- A start-value assignment (`struct Assignment`). -/
structure Assignment where
  name : String
  value : String
  deriving DecidableEq

/-- The native runner configuration (`struct Config` in `runner_bridge.cpp`). -/
structure Config where
  fmuPath : String
  startTime : Option ℚ
  stopTime : Option ℚ
  stepSize : Option ℚ
  startValues : List Assignment
  outputs : List String
  deriving DecidableEq

/-- A value read back from the FMU (`struct OutputValue`). -/
inductive OutVal where
  | real (q : ℚ)
  | int (i : ℤ)
  | bool (b : Bool)
  deriving DecidableEq

/-- Observable actions of one driver run, in order. -/
inductive Ev where
  | createDll
  | instantiate
  | setupExperiment (tol start stop : ℚ)
  | enterInit
  | setReal (vr : ℕ) (v : ℚ)
  | setInt (vr : ℕ) (v : ℤ)
  | setBool (vr : ℕ) (v : Bool)
  | exitInit
  | doStep (t h : ℚ)
  | terminate
  | freeInstance
  | destroyDll
  | freeImport
  | removeScratch
  deriving DecidableEq

/-- `(start, stop, step)` resolved for the run (`struct StepTimings`). -/
structure StepTimings where
  start : ℚ
  stop : ℚ
  step : ℚ
  deriving DecidableEq

/-- `deriveTimingsFmi2`: caller override wins, else the FMU default
experiment, else the fallbacks `0`, `start + 1`, `max 1e-3 (stop - start)`. -/
def deriveTimingsFmi2 (m : Fmu2Model) (cfg : Config) : StepTimings :=
  let start :=
    match cfg.startTime with
    | some s => s
    | none =>
      match m.defaultStart with
      | some s => s
      | none => 0
  let stop :=
    match cfg.stopTime with
    | some s => s
    | none =>
      match m.defaultStop with
      | some s => s
      | none => start + 1
  let step :=
    match cfg.stepSize with
    | some s => s
    | none =>
      match m.defaultStep with
      | some s => s
      | none => max (1 / 1000) (stop - start)
  ⟨start, stop, step⟩

/-- The step fix-up `runFmi2` applies after deriving timings (lines 400-405):
a non-positive step is replaced by `stop - start`, or by `1` when that is also
non-positive. -/
def fixupStep (t : StepTimings) : StepTimings :=
  if t.step ≤ 0 then
    if t.stop - t.start ≤ 0 then { t with step := 1 } else { t with step := t.stop - t.start }
  else t

/-- `fmi2_import_get_variable_by_name`: first declared variable with the name. -/
def getVariableByName (m : Fmu2Model) (name : String) : Option FmuVar2 :=
  m.vars.find? (fun v => v.name == name)

/-- `autoOutputsFmi2`: names of variables with causality `output` or
`calculated parameter`; the literal name `time` when there are none. -/
def autoOutputsFmi2 (m : Fmu2Model) : List String :=
  let names :=
    (m.vars.filter (fun v =>
      v.causality == Causality2.output || v.causality == Causality2.calculatedParameter)).map
      (fun v => v.name)
  if names.isEmpty then ["time"] else names

/-- `applyStartValueFmi2`: look the variable up, parse the text, call the
typed setter.  Returns the setter events performed and the error, if any. -/
def applyStartValueFmi2 (m : Fmu2Model) (a : Assignment) : List Ev × Except String Unit :=
  match getVariableByName m a.name with
  | none => ([], .error ("Unknown variable " ++ a.name))
  | some var =>
    match parseNumber a.value with
    | .error e => ([], .error e)
    | .ok val =>
      match var.baseType with
      | .real =>
        if m.setRealOk var.vr val then ([.setReal var.vr val], .ok ())
        else ([.setReal var.vr val], .error ("Failed setting real " ++ a.name))
      | .int =>
        let iv := toInt32 (llround val)
        if m.setIntOk var.vr iv then ([.setInt var.vr iv], .ok ())
        else ([.setInt var.vr iv], .error ("Failed setting integer " ++ a.name))
      | .bool =>
        let bv := decide (val ≠ 0)
        if m.setBoolOk var.vr bv then ([.setBool var.vr bv], .ok ())
        else ([.setBool var.vr bv], .error ("Failed setting boolean " ++ a.name))
      | .other => ([], .error ("Unsupported base type for " ++ a.name))

/-- Apply all start-value assignments in order, stopping at the first error. -/
def applyAllStartValues (m : Fmu2Model) : List Assignment → List Ev × Except String Unit
  | [] => ([], .ok ())
  | a :: rest =>
    match applyStartValueFmi2 m a with
    | (evs, .error e) => (evs, .error e)
    | (evs, .ok ()) =>
      let (evs2, r) := applyAllStartValues m rest
      (evs ++ evs2, r)

/-- `readOutputFmi2`: read one variable by its declared base type. -/
def readOutputFmi2 (m : Fmu2Model) (name : String) : Except String OutVal :=
  match getVariableByName m name with
  | none => .error ("Output variable " ++ name ++ " not found")
  | some var =>
    match var.baseType with
    | .real => .ok (.real (m.getReal var.vr))
    | .int => .ok (.int (m.getInt var.vr))
    | .bool => .ok (.bool (m.getBool var.vr))
    | .other => .error ("Unsupported output type for " ++ name)

/-- Byte-lexicographic comparison of character lists (C++ `std::string` `<`
and Go string `<`, which agree on the ASCII names used here). -/
def charListLt : List Char → List Char → Bool
  | [], [] => false
  | [], _ :: _ => true
  | _ :: _, [] => false
  | a :: as, b :: bs => if a < b then true else if b < a then false else charListLt as bs

/-- `a < b` on strings. -/
def strLtB (a b : String) : Bool := charListLt a.data b.data

/-- `a ≤ b` on strings. -/
def strLeB (a b : String) : Bool := !(strLtB b a)

/-- Insert into a `std::map<std::string, _>` (key-sorted, replacing). -/
def mapSetSorted (k : String) (v : OutVal) : List (String × OutVal) → List (String × OutVal)
  | [] => [(k, v)]
  | (k2, v2) :: rest =>
    if k = k2 then (k, v) :: rest
    else if strLeB k k2 then (k, v) :: (k2, v2) :: rest
    else (k2, v2) :: mapSetSorted k v rest

/-- The output-reading loop of `runFmi2`: `result.values[name] = readOutputFmi2(...)`. -/
def readOutputsFmi2 (m : Fmu2Model) : List String → List (String × OutVal) →
    Except String (List (String × OutVal))
  | [], acc => .ok acc
  | n :: rest, acc =>
    match readOutputFmi2 m n with
    | .error e => .error e
    | .ok v => readOutputsFmi2 m rest (mapSetSorted n v acc)

/-- The `do_step` loop of `runFmi2`: advance `current` by
`min step (stop - current)` while `current < stop - 1e-12`.  The fuel is a
model artefact bounding the number of iterations; theorems use enough fuel. -/
def stepLoopFmi2 (m : Fmu2Model) (stp stop : ℚ) : ℚ → ℕ → List Ev × Except String Unit
  | _, 0 => ([], .error "step loop fuel exhausted")
  | current, fuel + 1 =>
    if current < stop - 1 / 10 ^ 12 then
      let h := min stp (stop - current)
      if m.doStepOk current h then
        let (evs, r) := stepLoopFmi2 m stp stop (current + h) fuel
        (Ev.doStep current h :: evs, r)
      else ([Ev.doStep current h], .error "fmi2_do_step failed")
    else ([], .ok ())

/-- The result of a run (`struct FmuExecutionResult`): a key-sorted map. -/
structure FmuResult where
  values : List (String × OutVal)
  deriving DecidableEq

/-- Body of `runFmi2` after the XML parse: kind check, dll load, instantiate,
timings, setup, initialization, start values, step loop, outputs; on success
terminate, free the instance and destroy the dll, in that order. -/
def runFmi2Body (m : Fmu2Model) (cfg : Config) (fuel : ℕ) : List Ev × Except String FmuResult :=
  if m.kindIsCS = false then ([], .error "FMU is not Co-Simulation")
  else if m.createDllOk = false then ([.createDll], .error "Failed loading FMU binaries")
  else if m.instantiateOk = false then
    ([.createDll, .instantiate], .error "Failed to instantiate FMI2 FMU")
  else
    let t := fixupStep (deriveTimingsFmi2 m cfg)
    let tol :=
      match m.defaultTolerance with
      | some x => x
      | none => 1 / 10 ^ 4
    let pre := [Ev.createDll, Ev.instantiate, Ev.setupExperiment tol t.start t.stop]
    if m.setupOk = false then (pre, .error "fmi2_setup_experiment failed")
    else
      let pre := pre ++ [Ev.enterInit]
      if m.enterInitOk = false then (pre, .error "Failed entering initialization mode")
      else
        match applyAllStartValues m cfg.startValues with
        | (evs, .error e) => (pre ++ evs, .error e)
        | (evs, .ok ()) =>
          let pre := pre ++ evs ++ [Ev.exitInit]
          if m.exitInitOk = false then (pre, .error "Failed exiting initialization mode")
          else
            match stepLoopFmi2 m t.step t.stop t.start fuel with
            | (sevs, .error e) => (pre ++ sevs, .error e)
            | (sevs, .ok ()) =>
              let pre := pre ++ sevs
              let outs := if cfg.outputs.isEmpty then autoOutputsFmi2 m else cfg.outputs
              match readOutputsFmi2 m outs [] with
              | .error e => (pre, .error e)
              | .ok vals =>
                (pre ++ [Ev.terminate, Ev.freeInstance, Ev.destroyDll], .ok ⟨vals⟩)

/-- `runFmi2`: parse the model-description XML (guarded by `ScopedFmu2`, whose
destructor frees the import structure on every later exit path, success
included), then run the body. -/
def runFmi2 (m : Fmu2Model) (cfg : Config) (fuel : ℕ) : List Ev × Except String FmuResult :=
  if m.parseXmlOk = false then ([], .error "Failed parsing FMI2 XML")
  else
    let (evs, r) := runFmi2Body m cfg fuel
    (evs ++ [Ev.freeImport], r)

/-- Environment of one `runConfiguredFmu` invocation: whether the archive
exists on disk, whether the FMIL context allocates, what the version
detection reports, and the FMU behaviour.  `mkdtemp` is assumed to succeed;
`isV2 = false` with `detectOk = true` covers both FMI 3.0 (whose symmetric
path is not separately embedded) and unsupported versions. -/
structure FmuArchive where
  onDisk : Bool
  ctxOk : Bool
  detectOk : Bool
  isV2 : Bool
  model2 : Fmu2Model

/-- `runConfiguredFmu`: existence check, context, scratch directory
(`ScopedTempDir` removes it on every exit path after its creation), version
detection and dispatch. -/
def runConfiguredFmu (f : FmuArchive) (cfg : Config) (fuel : ℕ) :
    List Ev × Except String FmuResult :=
  if f.onDisk = false then ([], .error ("FMU not found: " ++ cfg.fmuPath))
  else if f.ctxOk = false then ([], .error "Failed to create FMIL context")
  else
    let (evs, r) :=
      if f.detectOk = false then ([], .error "Unable to detect FMI version")
      else if f.isV2 then runFmi2 f.model2 cfg fuel
      else ([], .error "Unsupported FMI version")
    (evs ++ [Ev.removeScratch], r)

/-! ## Workflow executor (`workflow.go`)

Go maps are embedded as association lists with distinct keys; `mapInsert`
overwrites an existing key in place, `mapLookup` finds the entry.  The driver
call `fmi.Run`, the `os.Stat` existence check and the snapshot write are
oracles supplied through a `WfEnv`. -/

/-- A decoded YAML scalar as Go sees it (`any`).  The several Go integer
widths (`int`, `int32`, `int64`, `uint`, `uint64`) are folded into `intV`,
`float64`/`float32` into `floatV`, and `string`/`json.Number` (both encoded
verbatim by `encodeScalar`) into `strV`. -/
inductive GoVal where
  | nullV
  | boolV (b : Bool)
  | intV (i : ℤ)
  | floatV (q : ℚ)
  | strV (s : String)
  | otherV
  deriving DecidableEq

/-- Go map lookup on the association-list embedding. -/
def mapLookup {α : Type} (m : List (String × α)) (k : String) : Option α :=
  (m.find? (fun p => p.1 == k)).map Prod.snd

/-- Go map assignment `m[k] = v`: replace the binding if the key exists,
append it otherwise. -/
def mapInsert {α : Type} (m : List (String × α)) (k : String) (v : α) : List (String × α) :=
  match m with
  | [] => [(k, v)]
  | (k2, v2) :: rest => if k2 == k then (k, v) :: rest else (k2, v2) :: mapInsert rest k v

/-- Stand-in for the text `fmt.Sprintf` `%.9g` produces: an injective
rendering of the denoted (9-significant-digit-rounded) value.  Only the
denoted value of this text is ever consumed. -/
def formatFloat (q : ℚ) : String :=
  toString (roundSig 9 q).num ++ "r" ++ toString (roundSig 9 q).den

/-- `encodeScalar` from `workflow.go`: encode one decoded scalar to the
textual start-value wire form. -/
def encodeScalar : GoVal → Except String String
  | .nullV => .error "value is null"
  | .boolV true => .ok "1"
  | .boolV false => .ok "0"
  | .intV i => .ok (toString i)
  | .floatV q => .ok (formatFloat q)
  | .strV s => .ok s
  | .otherV => .error "unsupported value type"

/-- One parsed workflow step (`type workflowStep`). -/
structure WorkflowStep where
  name : String
  fmu : String
  outputs : List String
  startTime : Option ℚ
  stopTime : Option ℚ
  stepSize : Option ℚ
  resultPath : String
  startValues : List (String × GoVal)
  startFrom : List (String × String)

/-- The per-run result store: step name to captured output map. -/
abbrev ResultStore := List (String × List (String × GoVal))

/-- Split a character list at the first `.`: the model of `strings.Cut`. -/
def splitAtDot : List Char → Option (List Char × List Char)
  | [] => none
  | c :: rest =>
    if c = '.' then some ([], rest)
    else
      match splitAtDot rest with
      | some (l, r) => some (c :: l, r)
      | none => none

/-- `strings.Cut(reference, ".")`: the parts before and after the first dot,
or `none` when the string has no dot. -/
def cutDot (s : String) : Option (String × String) :=
  match splitAtDot s.data with
  | some (l, r) => some (⟨l⟩, ⟨r⟩)
  | none => none

/-- Insertion sort on strings: the value `sort.Strings` produces. -/
def insertSorted (x : String) : List String → List String
  | [] => [x]
  | y :: ys => if strLeB x y then x :: y :: ys else y :: insertSorted x ys

/-- `sort.Strings`: lexicographically sorted copy of the keys. -/
def sortStrings (l : List String) : List String := l.foldr insertSorted []

/-- The first loop of `buildStartValues`: walk the literal `start_values`
keys in sorted order and encode each into the map. -/
def encodeLiterals (sv : List (String × GoVal)) :
    List String → List (String × String) → Except String (List (String × String))
  | [], acc => .ok acc
  | k :: rest, acc =>
    match encodeScalar ((mapLookup sv k).getD .nullV) with
    | .error e => .error ("start_values[" ++ k ++ "]: " ++ e)
    | .ok s => encodeLiterals sv rest (mapInsert acc k s)

/-- The second loop of `buildStartValues`: resolve each `start_from`
reference against the recorded results and write it into the map,
overwriting an existing binding for the same target. -/
def applyStartFrom (results : ResultStore) :
    List (String × String) → List (String × String) → Except String (List (String × String))
  | [], acc => .ok acc
  | (target, reference) :: rest, acc =>
    match cutDot reference with
    | none => .error ("start_from[" ++ target ++ "] must use format step.variable")
    | some (stepName, varName) =>
      if stepName = "" ∨ varName = "" then
        .error ("start_from[" ++ target ++ "] must use format step.variable")
      else
        match mapLookup results stepName with
        | none => .error ("start_from[" ++ target ++ "] references unknown step " ++ stepName)
        | some stepResult =>
          match mapLookup stepResult varName with
          | none =>
            .error ("start_from[" ++ target ++ "] missing variable " ++ varName ++
              " in step " ++ stepName)
          | some value =>
            match encodeScalar value with
            | .error e => .error ("start_from[" ++ target ++ "]: " ++ e)
            | .ok s => applyStartFrom results rest (mapInsert acc target s)

/-- `buildStartValues`: literals (sorted keys) first, then the `start_from`
pass over them. -/
def buildStartValues (step : WorkflowStep) (results : ResultStore) :
    Except String (List (String × String)) :=
  let afterLiterals :=
    if step.startValues.isEmpty then Except.ok []
    else encodeLiterals step.startValues (sortStrings (step.startValues.map Prod.fst)) []
  match afterLiterals with
  | .error e => .error e
  | .ok values => applyStartFrom results step.startFrom values

/-- The Go-side driver configuration (`type Config` in the `fmi` package). -/
structure FmiConfig where
  fmuPath : String
  startTime : Option ℚ
  stopTime : Option ℚ
  stepSize : Option ℚ
  startValues : List (String × String)
  outputs : List String

/-- Does a path start with `/`? (`filepath.IsAbs` on the Unix paths used). -/
def isAbsPath (p : String) : Bool :=
  match p.data with
  | '/' :: _ => true
  | _ => false

/-- `filepath.Join(root, p)`, modelled as plain concatenation. -/
def joinPath (root p : String) : String := root ++ "/" ++ p

/-- Path resolution of the executor: absolute paths pass through, others are
joined to the repository root. -/
def resolvePath (root p : String) : String := if isAbsPath p then p else joinPath root p

/-- Observable side effects of one workflow run. -/
inductive WfEvent where
  | ranFmu (stepName : String)
  | recorded (stepName : String)
  | wroteResult (stepName : String) (path : String)
  deriving DecidableEq

/-- Environment of the executor: the `os.Stat` existence oracle, the
`fmi.Run` driver oracle (C call plus JSON decode), and the
`writeResultFile` success oracle. -/
structure WfEnv where
  fmuOnDisk : String → Bool
  runFmuDriver : FmiConfig → Except String (List (String × GoVal))
  writeOk : String → Bool

/-- One iteration of the `Executor.Run` loop: per-step validation (name,
uniqueness, fmu path, file existence), start-value construction, driver
invocation, result recording, and the optional snapshot write.  Returns the
events performed and either the grown result store or the error message the
Go code returns. -/
def processStep (env : WfEnv) (root : String) (step : WorkflowStep) (results : ResultStore) :
    List WfEvent × Except String ResultStore :=
  if step.name = "" then ([], .error "workflow contains a step without name")
  else if (mapLookup results step.name).isSome then
    ([], .error ("workflow step " ++ step.name ++ " defined multiple times"))
  else if step.fmu = "" then
    ([], .error ("step " ++ step.name ++ " is missing its fmu path"))
  else if env.fmuOnDisk (resolvePath root step.fmu) = false then
    ([], .error ("step " ++ step.name ++ " references missing FMU " ++ resolvePath root step.fmu))
  else
    match buildStartValues step results with
    | .error e => ([], .error ("step " ++ step.name ++ " start values invalid: " ++ e))
    | .ok startVals =>
      match env.runFmuDriver
          { fmuPath := resolvePath root step.fmu, startTime := step.startTime,
            stopTime := step.stopTime, stepSize := step.stepSize,
            startValues := startVals, outputs := step.outputs } with
      | .error e => ([.ranFmu step.name], .error ("step " ++ step.name ++ " failed: " ++ e))
      | .ok result =>
        if step.resultPath = "" then
          ([WfEvent.ranFmu step.name, WfEvent.recorded step.name],
            .ok (mapInsert results step.name result))
        else if env.writeOk (resolvePath root step.resultPath) = false then
          ([WfEvent.ranFmu step.name, WfEvent.recorded step.name],
            .error ("write result for step " ++ step.name))
        else
          ([WfEvent.ranFmu step.name, WfEvent.recorded step.name,
            WfEvent.wroteResult step.name (resolvePath root step.resultPath)],
            .ok (mapInsert results step.name result))

/-- The step loop of `Executor.Run`: strictly sequential; the first failing
step aborts the run (`return nil, err`).  The pair mirrors the Go return
sites: `(some store, none)` on success, `(none, some message)` on error. -/
def runSteps (env : WfEnv) (root : String) :
    List WorkflowStep → ResultStore → List WfEvent × (Option ResultStore × Option String)
  | [], results => ([], (some results, none))
  | step :: rest, results =>
    match processStep env root step results with
    | (evs, .error e) => (evs, (none, some e))
    | (evs, .ok results2) =>
      let (evs2, r) := runSteps env root rest results2
      (evs ++ evs2, r)

/-- `Executor.Run` after the document is read and decoded: reject an empty
step list, then execute the steps.  (Reading and YAML-decoding the document
are I/O preludes whose failures also `return nil, err`.) -/
def runWorkflow (env : WfEnv) (root : String) (doc : List WorkflowStep) :
    List WfEvent × (Option ResultStore × Option String) :=
  if doc.isEmpty then ([], (none, some "workflow does not define any steps"))
  else runSteps env root doc []

/-! ## The two cgo bindings of `fmi.Run`

Both bindings lower a `FmiConfig` to the C struct `cads_fmu_config` and call
`cads_run_fmu`; one marshals through Go-allocated slices, the other through
`C.malloc`-ed buffers.  The C struct is embedded abstractly; the C call plus
the JSON decode of its result is an oracle (identical code in both files).
`C.malloc` is assumed to succeed (its failure path exists only in the second
binding and is outside the embedding). -/

/-- Abstract content of `cads_fmu_config` (part_013). -/
structure CadsCConfig where
  fmuPath : String
  hasStartTime : Bool
  startTime : ℚ
  hasStopTime : Bool
  stopTime : ℚ
  hasStepSize : Bool
  stepSize : ℚ
  startValues : List (String × String)
  outputs : List String
  deriving DecidableEq

/-- Zero-initialised `C.cads_fmu_config{}` with the FMU path set. -/
def zeroCConfig (path : String) : CadsCConfig :=
  ⟨path, false, 0, false, 0, false, 0, [], []⟩

/-- The config lowering of the slice-based binding (part_011 `Run`):
timing flags from the optional fields, assignments from the sorted
start-value keys, outputs verbatim. -/
def buildCConfigGoSlices (cfg : FmiConfig) : CadsCConfig :=
  let c := zeroCConfig cfg.fmuPath
  let c :=
    match cfg.startTime with
    | some t => { c with hasStartTime := true, startTime := t }
    | none => c
  let c :=
    match cfg.stopTime with
    | some t => { c with hasStopTime := true, stopTime := t }
    | none => c
  let c :=
    match cfg.stepSize with
    | some t => { c with hasStepSize := true, stepSize := t }
    | none => c
  let c :=
    if cfg.startValues.isEmpty then c
    else
      let keys := sortStrings (cfg.startValues.map Prod.fst)
      { c with startValues := keys.map (fun k => (k, (mapLookup cfg.startValues k).getD "")) }
  if cfg.outputs.isEmpty then c else { c with outputs := cfg.outputs }

/-- The config lowering of the malloc-based binding (part_012 `Run`):
the same flags, the same sorted assignment sequence and the same outputs,
marshalled into `C.malloc`-ed buffers. -/
def buildCConfigCMalloc (cfg : FmiConfig) : CadsCConfig :=
  let c := zeroCConfig cfg.fmuPath
  let c :=
    match cfg.startTime with
    | some t => { c with hasStartTime := true, startTime := t }
    | none => c
  let c :=
    match cfg.stopTime with
    | some t => { c with hasStopTime := true, stopTime := t }
    | none => c
  let c :=
    match cfg.stepSize with
    | some t => { c with hasStepSize := true, stepSize := t }
    | none => c
  let c :=
    if cfg.startValues.isEmpty then c
    else
      let keys := sortStrings (cfg.startValues.map Prod.fst)
      { c with startValues := keys.map (fun k => (k, (mapLookup cfg.startValues k).getD "")) }
  if cfg.outputs.isEmpty then c else { c with outputs := cfg.outputs }

/-- part_011 `Run`: path guard, lowering, C call and decode. -/
def fmiRunGoSlices (callRunner : CadsCConfig → Except String (List (String × GoVal)))
    (cfg : FmiConfig) : Except String (List (String × GoVal)) :=
  if cfg.fmuPath = "" then .error "fmi: FMU path is required"
  else callRunner (buildCConfigGoSlices cfg)

/-- part_012 `Run`: path guard, lowering, C call and decode. -/
def fmiRunCMalloc (callRunner : CadsCConfig → Except String (List (String × GoVal)))
    (cfg : FmiConfig) : Except String (List (String × GoVal)) :=
  if cfg.fmuPath = "" then .error "fmi: FMU path is required"
  else callRunner (buildCConfigCMalloc cfg)

/-! ## Helper views used by theorem statements -/

/-- The text a resolvable `start_from` reference derives: split at the first
dot, look the step and variable up, encode the recorded scalar. -/
def resolvedReference (results : ResultStore) (reference : String) : Option String :=
  match cutDot reference with
  | none => none
  | some (sn, v) =>
    if sn = "" ∨ v = "" then none
    else
      match mapLookup results sn with
      | none => none
      | some sr =>
        match mapLookup sr v with
        | none => none
        | some gv => (encodeScalar gv).toOption

/-- The text a literal `start_values` entry contributes for a key. -/
def literalText (sv : List (String × GoVal)) (k : String) : Option String :=
  match mapLookup sv k with
  | none => none
  | some v => (encodeScalar v).toOption

/-! ## Concrete instances used by witnesses and counterexamples -/

/-- A one-output FMU whose every FMIL call succeeds; its single real output
`y` (value reference 0) reads 7. -/
def fmuHappy : Fmu2Model :=
  { parseXmlOk := true, kindIsCS := true, createDllOk := true, instantiateOk := true,
    vars := [⟨"y", Causality2.output, BaseType2.real, 0⟩],
    defaultStart := none, defaultStop := none, defaultStep := none, defaultTolerance := some 1,
    setupOk := true, enterInitOk := true,
    setRealOk := fun _ _ => true, setIntOk := fun _ _ => true, setBoolOk := fun _ _ => true,
    exitInitOk := true, doStepOk := fun _ _ => true,
    getReal := fun _ => 7, getInt := fun _ => 0, getBool := fun _ => false }

/-- The archive wrapper of `fmuHappy` with every environment step succeeding. -/
def archiveHappy : FmuArchive := ⟨true, true, true, true, fmuHappy⟩

/-- A driver configuration whose caller overrides say `start = 5`, `stop = 2`. -/
def cfgBackwards : Config := ⟨"m.fmu", some 5, some 2, none, [], []⟩

/-- An FMU declaring no variables at all, with default stop time 1. -/
def fmuNoVars : Fmu2Model :=
  { fmuHappy with vars := [], defaultStop := some 1 }

/-- The archive wrapper of `fmuNoVars`. -/
def archiveNoVars : FmuArchive := ⟨true, true, true, true, fmuNoVars⟩

/-- A driver configuration with no overrides, no start values, no outputs. -/
def cfgPlain : Config := ⟨"m.fmu", none, none, none, [], []⟩

/-- `fmuHappy`, except that `fmi2_import_setup_experiment` fails. -/
def fmuSetupFails : Fmu2Model := { fmuHappy with setupOk := false }

/-- The archive wrapper of `fmuSetupFails`. -/
def archiveSetupFails : FmuArchive := ⟨true, true, true, true, fmuSetupFails⟩

/-- A workflow environment whose FMU files all exist, whose driver always
returns the single output `y = "1"`, and whose snapshot writes succeed. -/
def envHappy : WfEnv :=
  ⟨fun _ => true, fun _ => .ok [("y", GoVal.strV "1")], fun _ => true⟩

/-- A well-formed first workflow step. -/
def stepA : WorkflowStep := ⟨"A", "a.fmu", [], none, none, none, "", [], []⟩

/-- A workflow step with an empty name (structurally invalid). -/
def stepNoName : WorkflowStep := ⟨"", "b.fmu", [], none, none, none, "", [], []⟩

/-! ## Theorems -/

set_option maxRecDepth 8000

theorem fixupStep_pos (t : StepTimings) : 0 < (fixupStep t).step := by
  unfold fixupStep
  split
  · split
    · norm_num
    · next h2 => simpa using lt_of_not_le h2
  · next h => exact lt_of_not_le h

/-- C1 counterexample: with overrides `start = 5`, `stop = 2` the driver does
not fail with any timing error; the run succeeds, performs no `do_step`, and
returns the output snapshot. -/
theorem c1_no_invalid_timing_counterexample :
    cfgBackwards.startTime = some 5 ∧ cfgBackwards.stopTime = some 2 ∧
    runConfiguredFmu archiveHappy cfgBackwards 3 =
      ([Ev.createDll, Ev.instantiate, Ev.setupExperiment 1 5 2, Ev.enterInit, Ev.exitInit,
        Ev.terminate, Ev.freeInstance, Ev.destroyDll, Ev.freeImport, Ev.removeScratch],
       .ok ⟨[("y", OutVal.real 7)]⟩) := by
  refine ⟨rfl, rfl, ?_⟩
  with_unfolding_all decide

/-- C1 (amended): the resolver fix-up guarantees `step > 0`, but `stop < start`
is never rejected — when the resolved `stop ≤ start` the step loop performs
zero `do_step` calls and the run proceeds to read outputs. -/
theorem c1_timing_postcondition (m : Fmu2Model) (cfg : Config) :
    0 < (fixupStep (deriveTimingsFmi2 m cfg)).step ∧
    ((fixupStep (deriveTimingsFmi2 m cfg)).stop ≤ (fixupStep (deriveTimingsFmi2 m cfg)).start →
      ∀ fuel,
        stepLoopFmi2 m (fixupStep (deriveTimingsFmi2 m cfg)).step
          (fixupStep (deriveTimingsFmi2 m cfg)).stop
          (fixupStep (deriveTimingsFmi2 m cfg)).start (fuel + 1) = ([], .ok ())) := by
  refine ⟨fixupStep_pos _, fun hle fuel => ?_⟩
  have h12 : (0 : ℚ) < 1 / 10 ^ 12 := by norm_num
  unfold stepLoopFmi2
  rw [if_neg (not_lt.mpr (by linarith))]

/-- C1 witness: the amended statement instantiated at the backwards
configuration. -/
theorem c1_timing_postcondition_witness :
    0 < (fixupStep (deriveTimingsFmi2 fmuHappy cfgBackwards)).step ∧
    stepLoopFmi2 fmuHappy (fixupStep (deriveTimingsFmi2 fmuHappy cfgBackwards)).step
      (fixupStep (deriveTimingsFmi2 fmuHappy cfgBackwards)).stop
      (fixupStep (deriveTimingsFmi2 fmuHappy cfgBackwards)).start 1 = ([], .ok ()) :=
  ⟨(c1_timing_postcondition fmuHappy cfgBackwards).1,
   (c1_timing_postcondition fmuHappy cfgBackwards).2 (by with_unfolding_all decide) 0⟩

theorem suffix_cons_of {α : Type} {l m : List α} (a : α) (h : l <:+ m) : l <:+ a :: m :=
  h.trans (List.suffix_cons a m)

theorem suffix_append_of {α : Type} {l m : List α} (p : List α) (h : l <:+ m) : l <:+ p ++ m :=
  h.trans (List.suffix_append p m)

theorem suffix_append_both {α : Type} {l m : List α} (s : List α) (h : l <:+ m) :
    l ++ s <:+ m ++ s := by
  obtain ⟨t, rfl⟩ := h
  exact ⟨t, by simp⟩

theorem runFmi2Body_ok_suffix (m : Fmu2Model) (cfg : Config) (fuel : ℕ) :
    ∀ res, (runFmi2Body m cfg fuel).2 = .ok res →
      [Ev.terminate, Ev.freeInstance, Ev.destroyDll] <:+ (runFmi2Body m cfg fuel).1 := by
  unfold runFmi2Body
  dsimp only []
  intro res h
  repeat split at h <;> try (exfalso; simp at h; done)
  all_goals
    (repeat split
     all_goals simp_all
     all_goals
       first
       | exact List.suffix_append _ _
       | exact suffix_cons_of _ (suffix_cons_of _ (suffix_cons_of _ (suffix_cons_of _
           (suffix_append_of _ (suffix_cons_of _ (suffix_append_of _ List.suffix_rfl)))))))

theorem runFmi2_ok_suffix (m : Fmu2Model) (cfg : Config) (fuel : ℕ) :
    ∀ res, (runFmi2 m cfg fuel).2 = .ok res →
      [Ev.terminate, Ev.freeInstance, Ev.destroyDll, Ev.freeImport] <:+ (runFmi2 m cfg fuel).1 := by
  intro res h
  unfold runFmi2 at h ⊢
  split at h
  · simp at h
  · next hx =>
    rw [if_neg hx]
    rcases hb : runFmi2Body m cfg fuel with ⟨evs0, r⟩
    rw [hb] at h
    dsimp only [] at h ⊢
    subst h
    have := runFmi2Body_ok_suffix m cfg fuel res (by rw [hb])
    rw [hb] at this
    simpa using suffix_append_both [Ev.freeImport] this

/-- C3 (amended): on a successful run the trace ends with terminate, free
instance, destroy dll, free import, remove scratch — in that order; and on
every exit path on which the scratch directory was created it is removed as
the final action.  (Error paths after instantiation do not terminate or free
the instance; see the counterexample.) -/
theorem c3_teardown (f : FmuArchive) (cfg : Config) (fuel : ℕ) :
    (∀ res, (runConfiguredFmu f cfg fuel).2 = .ok res →
      [Ev.terminate, Ev.freeInstance, Ev.destroyDll, Ev.freeImport, Ev.removeScratch] <:+
        (runConfiguredFmu f cfg fuel).1) ∧
    (f.onDisk = true → f.ctxOk = true →
      [Ev.removeScratch] <:+ (runConfiguredFmu f cfg fuel).1) := by
  constructor
  · intro res h
    unfold runConfiguredFmu at h ⊢
    split at h
    · simp at h
    · next hdisk =>
      rw [if_neg hdisk]
      split at h
      · simp at h
      · next hctx =>
        rw [if_neg hctx]
        rcases hinner :
          (if f.detectOk = false then ([], Except.error "Unable to detect FMI version")
           else if f.isV2 = true then runFmi2 f.model2 cfg fuel
           else ([], Except.error "Unsupported FMI version")) with ⟨evs0, r⟩
        rw [hinner] at h
        dsimp only [] at h ⊢
        subst h
        split at hinner
        · simp at hinner
        · split at hinner
          · next hv2 =>
            have := runFmi2_ok_suffix f.model2 cfg fuel res (by rw [hinner])
            rw [hinner] at this
            dsimp only [] at this
            simpa using suffix_append_both [Ev.removeScratch] this
          · simp at hinner
  · intro h1 h2
    unfold runConfiguredFmu
    rw [if_neg (by simp [h1]), if_neg (by simp [h2])]
    rcases hinner :
      (if f.detectOk = false then ([], Except.error "Unable to detect FMI version")
       else if f.isV2 = true then runFmi2 f.model2 cfg fuel
       else ([], Except.error "Unsupported FMI version")) with ⟨evs0, r⟩
    dsimp only []
    exact List.suffix_append evs0 [Ev.removeScratch]

/-- C3 counterexample: when `setup_experiment` fails, the exit path frees only
the import structure and the scratch directory — the instance is neither
terminated nor freed and the dll is not destroyed. -/
theorem c3_error_path_counterexample :
    runConfiguredFmu archiveSetupFails cfgPlain 3 =
      ([Ev.createDll, Ev.instantiate, Ev.setupExperiment 1 0 1, Ev.freeImport, Ev.removeScratch],
       .error "fmi2_setup_experiment failed") ∧
    Ev.instantiate ∈ (runConfiguredFmu archiveSetupFails cfgPlain 3).1 ∧
    Ev.terminate ∉ (runConfiguredFmu archiveSetupFails cfgPlain 3).1 ∧
    Ev.freeInstance ∉ (runConfiguredFmu archiveSetupFails cfgPlain 3).1 ∧
    Ev.destroyDll ∉ (runConfiguredFmu archiveSetupFails cfgPlain 3).1 := by
  with_unfolding_all decide

/-- C3 witness: the success-path teardown instantiated at the happy run. -/
theorem c3_teardown_witness :
    [Ev.terminate, Ev.freeInstance, Ev.destroyDll, Ev.freeImport, Ev.removeScratch] <:+
      (runConfiguredFmu archiveHappy cfgBackwards 3).1 :=
  (c3_teardown archiveHappy cfgBackwards 3).1 ⟨[("y", OutVal.real 7)]⟩
    (by with_unfolding_all decide)


theorem autoOutputs_no_outputs (m : Fmu2Model)
    (hno : ∀ v ∈ m.vars,
      v.causality ≠ Causality2.output ∧ v.causality ≠ Causality2.calculatedParameter) :
    autoOutputsFmi2 m = ["time"] := by
  unfold autoOutputsFmi2
  have hfil : m.vars.filter (fun v =>
      v.causality == Causality2.output || v.causality == Causality2.calculatedParameter) = [] := by
    rw [List.filter_eq_nil_iff]
    intro v hv
    rcases hno v hv with ⟨h1, h2⟩
    simp [h1, h2]
  simp [hfil]

theorem readOutputs_time_missing (m : Fmu2Model)
    (hnotime : getVariableByName m "time" = none) :
    readOutputsFmi2 m ["time"] [] = .error "Output variable time not found" := by
  simp [readOutputsFmi2, readOutputFmi2, hnotime]

theorem runFmi2Body_ok_outputs (m : Fmu2Model) (cfg : Config) (fuel : ℕ) :
    ∀ res, (runFmi2Body m cfg fuel).2 = .ok res →
      ∃ vals,
        readOutputsFmi2 m (if cfg.outputs.isEmpty then autoOutputsFmi2 m else cfg.outputs) [] =
          .ok vals := by
  unfold runFmi2Body
  dsimp only []
  intro res h
  repeat split at h <;> try (exfalso; simp at h; done)
  all_goals simp_all

/-- C2 (amended): when the caller supplies no outputs and the FMU declares no
variable of causality output or calculated parameter, auto-selection falls
back to the literal name `time`; if no variable is literally named `time`,
reading the outputs fails with an unknown-output error and no run can return
a result — the map `{time: stop}` is never produced. -/
theorem c2_time_fallback (m : Fmu2Model)
    (hno : ∀ v ∈ m.vars,
      v.causality ≠ Causality2.output ∧ v.causality ≠ Causality2.calculatedParameter)
    (hnotime : getVariableByName m "time" = none) :
    autoOutputsFmi2 m = ["time"] ∧
    readOutputsFmi2 m (autoOutputsFmi2 m) [] = .error "Output variable time not found" ∧
    ∀ cfg : Config, cfg.outputs = [] → ∀ fuel res, (runFmi2 m cfg fuel).2 ≠ .ok res := by
  have hauto := autoOutputs_no_outputs m hno
  have hread := readOutputs_time_missing m hnotime
  refine ⟨hauto, by rw [hauto]; exact hread, ?_⟩
  intro cfg hcfg fuel res h
  unfold runFmi2 at h
  split at h
  · simp at h
  · rcases hb : runFmi2Body m cfg fuel with ⟨evs0, r⟩
    rw [hb] at h
    dsimp only [] at h
    subst h
    obtain ⟨vals, hvals⟩ := runFmi2Body_ok_outputs m cfg fuel res (by rw [hb])
    rw [hcfg] at hvals
    simp only [List.isEmpty_nil, if_true] at hvals
    rw [hauto, hread] at hvals
    exact Except.noConfusion hvals

/-- C2 counterexample: an FMU with no declared variables, run with no
requested outputs, does not succeed with `{time: stop}` — it fails with
`Output variable time not found`. -/
theorem c2_counterexample :
    fmuNoVars.vars = [] ∧ cfgPlain.outputs = [] ∧
    runConfiguredFmu archiveNoVars cfgPlain 3 =
      ([Ev.createDll, Ev.instantiate, Ev.setupExperiment 1 0 1, Ev.enterInit, Ev.exitInit,
        Ev.doStep 0 1, Ev.freeImport, Ev.removeScratch],
       .error "Output variable time not found") := by
  refine ⟨rfl, rfl, ?_⟩
  with_unfolding_all decide

/-- C2 witness: the fallback statement instantiated at the variable-free FMU. -/
theorem c2_time_fallback_witness :
    autoOutputsFmi2 fmuNoVars = ["time"] ∧
    readOutputsFmi2 fmuNoVars (autoOutputsFmi2 fmuNoVars) [] =
      .error "Output variable time not found" ∧
    (runFmi2 fmuNoVars cfgPlain 3).2 ≠ .ok ⟨[]⟩ :=
  have h := c2_time_fallback fmuNoVars (by simp [fmuNoVars, fmuHappy])
    (by with_unfolding_all decide)
  ⟨h.1, h.2.1, h.2.2 cfgPlain rfl 3 ⟨[]⟩⟩

theorem qpowAux_eq : ∀ (fuel n : ℕ) (b : ℚ), n < 2 ^ fuel → qpowAux b n fuel = b ^ n
  | 0, n, b, h => by
    have hn : n = 0 := by omega
    subst hn; simp [qpowAux]
  | fuel + 1, n, b, h => by
    by_cases h0 : n = 0
    · subst h0; simp [qpowAux]
    · have hlt : n / 2 < 2 ^ fuel := by
        rw [pow_succ] at h; omega
      have ih := qpowAux_eq fuel (n / 2) (b * b) hlt
      simp only [qpowAux, if_neg h0, ih]
      have hbb : (b * b) ^ (n / 2) = b ^ (2 * (n / 2)) := by
        rw [two_mul, pow_add]; ring
      rcases Nat.mod_two_eq_zero_or_one n with hm | hm
      · rw [if_neg (by omega), hbb, one_mul]
        congr 1
        omega
      · rw [if_pos hm, hbb, ← pow_succ']
        congr 1
        omega

theorem qpowN_eq (b : ℚ) (n : ℕ) : qpowN b n = b ^ n :=
  qpowAux_eq n n b (Nat.lt_two_pow n)

theorem qpowZ_eq (b : ℚ) (e : ℤ) : qpowZ b e = b ^ e := by
  unfold qpowZ
  split
  · next h => rw [qpowN_eq, ← zpow_natCast, Int.toNat_of_nonneg h]
  · next h =>
    rw [qpowN_eq, ← zpow_natCast, Int.toNat_of_nonneg (by omega), one_div, ← zpow_neg, neg_neg]

theorem expSearch_lower (b q : ℚ) : ∀ (fuel : ℕ) (e : ℤ),
    qpowZ b e ≤ q → qpowZ b (expSearch b q fuel e) ≤ q
  | 0, e, hinv => hinv
  | fuel + 1, e, hinv => by
    unfold expSearch
    split
    · next h => exact expSearch_lower b q fuel (e + 1) h
    · split
      · next h1 h2 => exact absurd hinv (not_le.mpr h2)
      · exact hinv

theorem roundToGrid_intMul (b : ℚ) (e : ℤ) (q : ℚ) (m : ℤ)
    (hb : 0 < b) (hm : q = (m : ℚ) * qpowZ b e) : roundToGrid b e q = q := by
  have hb0 : b ≠ 0 := ne_of_gt hb
  unfold roundToGrid
  split
  · next he =>
    have hg : qpowN b e.toNat = b ^ e := by
      rw [qpowN_eq, ← zpow_natCast, Int.toNat_of_nonneg he]
    have hgne : (b : ℚ) ^ e ≠ 0 := zpow_ne_zero e hb0
    have hq : q / qpowN b e.toNat = (m : ℚ) := by
      rw [hg, hm, qpowZ_eq]
      field_simp
    rw [hq, round_intCast, ← hq, hg]
    field_simp
  · next he =>
    have hg : qpowN b (-e).toNat = b ^ (-e) := by
      rw [qpowN_eq, ← zpow_natCast, Int.toNat_of_nonneg (by omega)]
    have hgne : (b : ℚ) ^ (-e) ≠ 0 := zpow_ne_zero _ hb0
    have hq : q * qpowN b (-e).toNat = (m : ℚ) := by
      rw [hg, hm, qpowZ_eq, mul_assoc, ← zpow_add₀ hb0]
      simp
    rw [hq, round_intCast, ← hq, hg]
    field_simp

theorem binExp_low (q : ℚ) (h1 : 1 ≤ |q|) : qpowZ 2 (binExp q) ≤ |q| := by
  unfold binExp
  exact expSearch_lower 2 |q| 2200 0 (by rw [qpowZ_eq, zpow_zero]; exact h1)

theorem decExp_low (q : ℚ) (h1 : 1 ≤ |q|) : qpowZ 10 (decExp q) ≤ |q| := by
  unfold decExp
  exact expSearch_lower 10 |q| 700 0 (by rw [qpowZ_eq, zpow_zero]; exact h1)

theorem parseDouble_int (i : ℤ) (h0 : i ≠ 0) (h : |i| < 2 ^ 53) : parseDouble (i : ℚ) = i := by
  have hq0 : (i : ℚ) ≠ 0 := Int.cast_ne_zero.mpr h0
  have hone : (1 : ℚ) ≤ |(i : ℚ)| := by
    rw [← Int.cast_abs]
    exact_mod_cast Int.one_le_abs h0
  have hlow := binExp_low (i : ℚ) hone
  have hE : binExp (i : ℚ) ≤ 52 := by
    by_contra hc
    push_neg at hc
    have h53 : (2 : ℚ) ^ (53 : ℤ) ≤ qpowZ 2 (binExp (i : ℚ)) := by
      rw [qpowZ_eq]
      exact zpow_le_zpow_right₀ (by norm_num) (by omega)
    have habs : |(i : ℚ)| < (2 : ℚ) ^ (53 : ℤ) := by
      rw [← Int.cast_abs]
      have h2 : ((2 : ℚ) ^ (53 : ℤ)) = ((2 ^ 53 : ℤ) : ℚ) := by push_cast; norm_num
      rw [h2]
      exact_mod_cast h
    linarith
  unfold parseDouble
  rw [if_neg hq0]
  refine roundToGrid_intMul 2 _ _ (i * 2 ^ (52 - binExp (i : ℚ)).toNat) (by norm_num) ?_
  rw [qpowZ_eq]
  push_cast
  rw [← zpow_natCast 2 ((52 - binExp (i : ℚ)).toNat), Int.toNat_of_nonneg (by omega),
    mul_assoc, ← zpow_add₀ (two_ne_zero : (2 : ℚ) ≠ 0)]
  norm_num

theorem roundSig9_int (d : ℤ) (h0 : d ≠ 0) (h : |d| < 10 ^ 9) : roundSig 9 (d : ℚ) = d := by
  have hq0 : (d : ℚ) ≠ 0 := Int.cast_ne_zero.mpr h0
  have hone : (1 : ℚ) ≤ |(d : ℚ)| := by
    rw [← Int.cast_abs]
    exact_mod_cast Int.one_le_abs h0
  have hlow := decExp_low (d : ℚ) hone
  have hE : decExp (d : ℚ) ≤ 8 := by
    by_contra hc
    push_neg at hc
    have h9 : (10 : ℚ) ^ (9 : ℤ) ≤ qpowZ 10 (decExp (d : ℚ)) := by
      rw [qpowZ_eq]
      exact zpow_le_zpow_right₀ (by norm_num) (by omega)
    have habs : |(d : ℚ)| < (10 : ℚ) ^ (9 : ℤ) := by
      rw [← Int.cast_abs]
      have h10 : ((10 : ℚ) ^ (9 : ℤ)) = ((10 ^ 9 : ℤ) : ℚ) := by push_cast; norm_num
      rw [h10]
      exact_mod_cast h
    linarith
  unfold roundSig
  rw [if_neg hq0]
  refine roundToGrid_intMul 10 _ _ (d * 10 ^ ((8 : ℤ) - decExp (d : ℚ)).toNat) (by norm_num) ?_
  rw [qpowZ_eq]
  push_cast
  rw [← zpow_natCast 10 (((8 : ℤ) - decExp (d : ℚ)).toNat), Int.toNat_of_nonneg (by omega),
    mul_assoc, ← zpow_add₀ (by norm_num : (10 : ℚ) ≠ 0)]
  norm_num

theorem llround_intCast (i : ℤ) : llround (i : ℚ) = i := by
  unfold llround
  split
  · next h =>
    rw [show ((i : ℚ) + 1 / 2) = (1 / 2 : ℚ) + i by ring, Int.floor_add_int]
    norm_num
  · next h =>
    rw [show (-(i : ℚ) + 1 / 2) = (1 / 2 : ℚ) + (-i : ℤ) by push_cast; ring, Int.floor_add_int]
    norm_num

theorem toInt32_id (i : ℤ) (h1 : -2 ^ 31 ≤ i) (h2 : i < 2 ^ 31) : toInt32 i = i := by
  unfold toInt32
  omega

set_option maxRecDepth 8000 in
/-- C5 counterexample: the binary64 value `1 + 2⁻⁵²` (the successor of 1) is
not recovered by the encode/parse round trip — `%.9g` rounds it to `1`, so
the downstream real setter receives `1`, not the upstream value. -/
theorem c5_roundtrip_counterexample :
    IsDouble (1 + qpowZ 2 (-52)) ∧
    deliveredReal (formatFloatValue (1 + qpowZ 2 (-52))) = 1 ∧
    1 + qpowZ 2 (-52) ≠ 1 := by
  refine ⟨⟨2 ^ 52 + 1, -52, by norm_num, by norm_num, by norm_num, ?_⟩, ?_, ?_⟩
  · rw [qpowZ_eq]
    push_cast
    rw [show ((4503599627370497 : ℚ)) = 2 ^ (52 : ℕ) + 1 by norm_num, add_mul,
      ← zpow_natCast 2 52, ← zpow_add₀ (two_ne_zero : (2 : ℚ) ≠ 0)]
    norm_num
  · with_unfolding_all decide
  · with_unfolding_all decide

/-- C5 (amended): the coercion chain is faithful for every `int32` integer
and for booleans, and for reals representable in at most 9 significant
decimal digits (for instance, integer-valued reals below `10⁹`) — but not
for every binary64 real (see the counterexample). -/
theorem c5_codec_roundtrip :
    (∀ i : ℤ, -2 ^ 31 ≤ i → i < 2 ^ 31 → deliveredInt (i : ℚ) = i) ∧
    (∀ v : Bool, deliveredBool (if v then 1 else 0) = v) ∧
    (∀ d : ℤ, |d| < 10 ^ 9 → deliveredReal (formatFloatValue (d : ℚ)) = d) := by
  refine ⟨?_, ?_, ?_⟩
  · intro i h1 h2
    by_cases h0 : i = 0
    · subst h0
      show toInt32 (llround (parseDouble ((0 : ℤ) : ℚ))) = 0
      norm_num [parseDouble, llround, toInt32]
    · unfold deliveredInt
      rw [parseDouble_int i h0 (abs_lt.mpr ⟨by omega, by omega⟩), llround_intCast,
        toInt32_id i h1 h2]
  · intro v
    cases v
    · show deliveredBool 0 = false
      simp [deliveredBool, parseDouble]
    · show deliveredBool 1 = true
      have h1 : parseDouble ((1 : ℤ) : ℚ) = 1 := parseDouble_int 1 (by norm_num) (by norm_num)
      simp only [deliveredBool]
      rw [show ((1 : ℚ)) = ((1 : ℤ) : ℚ) by norm_num, h1]
      norm_num
  · intro d hd
    by_cases h0 : d = 0
    · subst h0
      show parseDouble (roundSig 9 ((0 : ℤ) : ℚ)) = 0
      norm_num [roundSig, parseDouble]
    · unfold deliveredReal formatFloatValue
      rw [roundSig9_int d h0 hd, parseDouble_int d h0 (lt_trans hd (by norm_num))]

/-- C5 witness: the round-trip statement instantiated at `5`, `true`, `25`. -/
theorem c5_codec_roundtrip_witness :
    deliveredInt ((5 : ℤ) : ℚ) = 5 ∧ deliveredBool (if true then 1 else 0) = true ∧
    deliveredReal (formatFloatValue ((25 : ℤ) : ℚ)) = 25 :=
  ⟨c5_codec_roundtrip.1 5 (by norm_num) (by norm_num),
   c5_codec_roundtrip.2.1 true,
   c5_codec_roundtrip.2.2 25 (by norm_num)⟩

/-- C6 counterexample: the empty start-value text is not rejected —
`strtod` converts nothing, leaves the end pointer at the terminator, and the
driver accepts the value `0` and delivers it to the real setter. -/
theorem c6_empty_string_counterexample :
    parseNumber "" = .ok 0 ∧
    applyStartValueFmi2 fmuHappy ⟨"y", ""⟩ = ([Ev.setReal 0 0], .ok ()) := by
  constructor <;> with_unfolding_all decide

/-- C6 (amended): the driver parse rejects any input `strtod` does not fully
consume and any non-finite conversion (`nan`, `inf`), but the empty string is
fully consumed with value `0` and is accepted. -/
theorem c6_parse_rejections :
    (∀ s : String, (strtodModel s).2 ≠ s.length → ∃ e, parseNumber s = .error e) ∧
    (∀ s : String,
      (strtodModel s).1 = .nan ∨ (strtodModel s).1 = .posInf ∨ (strtodModel s).1 = .negInf →
      ∃ e, parseNumber s = .error e) ∧
    parseNumber "1.5x" = .error "Unable to parse numeric value from 1.5x" ∧
    parseNumber "nan" = .error "Unable to parse numeric value from nan" ∧
    parseNumber "inf" = .error "Unable to parse numeric value from inf" ∧
    parseNumber "-inf" = .error "Unable to parse numeric value from -inf" ∧
    parseNumber "" = .ok 0 := by
  refine ⟨?_, ?_, ?_, ?_, ?_, ?_, ?_⟩
  · intro s hne
    unfold parseNumber
    rcases hst : strtodModel s with ⟨v, n⟩
    rw [hst] at hne
    dsimp only [] at hne ⊢
    rw [if_pos hne]
    exact ⟨_, rfl⟩
  · intro s hv
    unfold parseNumber
    rcases hst : strtodModel s with ⟨v, n⟩
    rw [hst] at hv
    dsimp only [] at hv ⊢
    by_cases hn : n ≠ s.length
    · rw [if_pos hn]
      exact ⟨_, rfl⟩
    · rw [if_neg hn]
      rcases hv with h | h | h <;> (subst h; exact ⟨_, rfl⟩)
  all_goals with_unfolding_all decide

/-- C6 witness: the rejection statement instantiated at a garbage input and
at `nan`. -/
theorem c6_parse_rejections_witness :
    (∃ e, parseNumber "xyz" = .error e) ∧ (∃ e, parseNumber "nan" = .error e) :=
  ⟨c6_parse_rejections.1 "xyz" (by with_unfolding_all decide),
   c6_parse_rejections.2.1 "nan" (Or.inl (by with_unfolding_all decide))⟩

theorem splitAtDot_append (post : List Char) :
    ∀ pre : List Char, '.' ∉ pre → splitAtDot (pre ++ '.' :: post) = some (pre, post)
  | [], _ => by simp [splitAtDot]
  | c :: pre, hmem => by
    have hc : ¬c = '.' := fun h => hmem (by simp [h])
    have hrest : '.' ∉ pre := fun h => hmem (List.mem_cons_of_mem c h)
    simp only [List.cons_append, splitAtDot, if_neg hc, List.append_eq,
      splitAtDot_append post pre hrest]

/-- C4 counterexample: the reference `a.b.c` has two dots yet is accepted —
`strings.Cut` splits at the first dot, so it resolves step `a`, variable
`b.c`, and `buildStartValues` succeeds. -/
theorem c4_multidot_counterexample :
    cutDot "a.b.c" = some ("a", "b.c") ∧
    buildStartValues ⟨"s2", "f", [], none, none, none, "", [], [("x", "a.b.c")]⟩
      [("a", [("b.c", GoVal.strV "7")])] = .ok [("x", "7")] := by
  constructor <;> with_unfolding_all decide

/-- C4 (amended): a reference with no dot, an empty step side or an empty
variable side is rejected as malformed; a reference with more than one dot is
not rejected — it is split at the first dot, the remainder (dots included)
being the variable name. -/
theorem c4_reference_parsing :
    (∀ (results : ResultStore) (target reference : String)
        (rest acc : List (String × String)),
      cutDot reference = none →
      applyStartFrom results ((target, reference) :: rest) acc =
        .error ("start_from[" ++ target ++ "] must use format step.variable")) ∧
    (∀ (results : ResultStore) (target reference : String)
        (rest acc : List (String × String)) (sn v : String),
      cutDot reference = some (sn, v) → sn = "" ∨ v = "" →
      applyStartFrom results ((target, reference) :: rest) acc =
        .error ("start_from[" ++ target ++ "] must use format step.variable")) ∧
    (∀ pre post : List Char, '.' ∉ pre →
      cutDot ⟨pre ++ '.' :: post⟩ = some (⟨pre⟩, ⟨post⟩)) := by
  refine ⟨?_, ?_, ?_⟩
  · intro results target reference rest acc hcut
    unfold applyStartFrom
    rw [hcut]
  · intro results target reference rest acc sn v hcut hempty
    unfold applyStartFrom
    rw [hcut]
    dsimp only []
    rw [if_pos hempty]
  · intro pre post hmem
    unfold cutDot
    rw [show (String.mk (pre ++ '.' :: post)).data = pre ++ '.' :: post from rfl,
      splitAtDot_append post pre hmem]

/-- C4 witness: the malformed cases and the first-dot split instantiated. -/
theorem c4_reference_parsing_witness :
    applyStartFrom [] [("x", "abc")] [] =
      .error "start_from[x] must use format step.variable" ∧
    applyStartFrom [] [("x", ".b")] [] =
      .error "start_from[x] must use format step.variable" ∧
    cutDot ⟨['a'] ++ '.' :: ['b', '.', 'c']⟩ = some (⟨['a']⟩, ⟨['b', '.', 'c']⟩) :=
  ⟨c4_reference_parsing.1 [] "x" "abc" [] [] (by with_unfolding_all decide),
   c4_reference_parsing.2.1 [] "x" ".b" [] [] "" "b" (by with_unfolding_all decide) (Or.inl rfl),
   c4_reference_parsing.2.2 ['a'] ['b', '.', 'c'] (by decide)⟩

/-- C9: the Go-slice and the C-malloc bindings of `fmi.Run` lower every
configuration to the same `cads_fmu_config` content — same path, same timing
flags and values, the same assignment sequence in sorted key order, the same
output list — and therefore agree on the result of every call. -/
theorem c9_bindings_agree :
    (∀ cfg : FmiConfig, buildCConfigGoSlices cfg = buildCConfigCMalloc cfg) ∧
    (∀ (callRunner : CadsCConfig → Except String (List (String × GoVal)))
       (cfg : FmiConfig), fmiRunGoSlices callRunner cfg = fmiRunCMalloc callRunner cfg) :=
  ⟨fun _ => rfl, fun _ _ => rfl⟩

theorem mapLookup_cons {α : Type} (k2 : String) (v2 : α) (rest : List (String × α)) (k : String) :
    mapLookup ((k2, v2) :: rest) k = if k2 = k then some v2 else mapLookup rest k := by
  by_cases h : k2 = k
  · have hb : (k2 == k) = true := by simpa using h
    simp [mapLookup, List.find?, hb, h]
  · have hb : (k2 == k) = false := by simpa using h
    simp [mapLookup, List.find?, hb, h]

theorem mapInsert_cons {α : Type} (k2 : String) (v2 : α) (rest : List (String × α))
    (k : String) (v : α) :
    mapInsert ((k2, v2) :: rest) k v =
      if k2 = k then (k, v) :: rest else (k2, v2) :: mapInsert rest k v := by
  by_cases h : k2 = k
  · have hb : (k2 == k) = true := by simpa using h
    simp [mapInsert, hb, h]
  · have hb : (k2 == k) = false := by simpa using h
    simp [mapInsert, hb, h]

theorem mapLookup_insert_self {α : Type} (m : List (String × α)) (k : String) (v : α) :
    mapLookup (mapInsert m k v) k = some v := by
  induction m with
  | nil => simp [mapInsert, mapLookup, List.find?]
  | cons p rest ih =>
    rcases p with ⟨k2, v2⟩
    rw [mapInsert_cons]
    by_cases h : k2 = k
    · rw [if_pos h, mapLookup_cons, if_pos rfl]
    · rw [if_neg h, mapLookup_cons, if_neg h, ih]

theorem mapLookup_insert_isSome {α : Type} (m : List (String × α)) (k k2 : String) (v : α)
    (h : (mapLookup m k2).isSome) : (mapLookup (mapInsert m k v) k2).isSome := by
  induction m with
  | nil => simp [mapLookup, List.find?] at h
  | cons p rest ih =>
    rcases p with ⟨k3, v3⟩
    rw [mapLookup_cons] at h
    rw [mapInsert_cons]
    by_cases h3 : k3 = k
    · rw [if_pos h3, mapLookup_cons]
      by_cases hkk : k = k2
      · rw [if_pos hkk]; rfl
      · rw [if_neg hkk]
        rw [if_neg (by rw [h3]; exact hkk)] at h
        exact h
    · rw [if_neg h3, mapLookup_cons]
      by_cases h32 : k3 = k2
      · rw [if_pos h32]; rfl
      · rw [if_neg h32]
        rw [if_neg h32] at h
        exact ih h

theorem processStep_ok_store (env : WfEnv) (root : String) (step : WorkflowStep)
    (results : ResultStore) :
    ∀ evs st, processStep env root step results = (evs, .ok st) →
      ∃ out, st = mapInsert results step.name out := by
  intro evs st h
  unfold processStep at h
  repeat' split at h
  all_goals (try (exfalso; simp at h; done))
  all_goals
    (rw [Prod.mk.injEq] at h
     rcases h with ⟨h1, h2⟩
     cases h2
     exact ⟨_, rfl⟩)

theorem runSteps_cons_error (env : WfEnv) (root : String) (step : WorkflowStep)
    (rest : List WorkflowStep) (results : ResultStore) (evs : List WfEvent) (e : String)
    (hp : processStep env root step results = (evs, .error e)) :
    runSteps env root (step :: rest) results = (evs, (none, some e)) := by
  unfold runSteps
  rw [hp]

theorem runSteps_cons_ok (env : WfEnv) (root : String) (step : WorkflowStep)
    (rest : List WorkflowStep) (results : ResultStore) (evs : List WfEvent)
    (acc2 : ResultStore) (hp : processStep env root step results = (evs, .ok acc2)) :
    runSteps env root (step :: rest) results =
      (evs ++ (runSteps env root rest acc2).1, (runSteps env root rest acc2).2) := by
  conv_lhs => rw [runSteps]
  rw [hp]

theorem runSteps_complete_or_error (env : WfEnv) (root : String) :
    ∀ (steps : List WorkflowStep) (acc : ResultStore),
      (∃ e, (runSteps env root steps acc).2 = (none, some e)) ∨
      (∃ st, (runSteps env root steps acc).2 = (some st, none) ∧
        (∀ s ∈ steps, (mapLookup st s.name).isSome) ∧
        (∀ k, (mapLookup acc k).isSome → (mapLookup st k).isSome))
  | [], acc => Or.inr ⟨acc, rfl, by simp, fun _ h => h⟩
  | step :: rest, acc => by
    rcases hp : processStep env root step acc with ⟨evs, r⟩
    rcases r with e | acc2
    · rw [runSteps_cons_error env root step rest acc evs e hp]
      exact Or.inl ⟨e, rfl⟩
    · rw [runSteps_cons_ok env root step rest acc evs acc2 hp]
      rcases runSteps_complete_or_error env root rest acc2 with ⟨e, he⟩ | ⟨st, hst, hall, hmono⟩
      · exact Or.inl ⟨e, he⟩
      · refine Or.inr ⟨st, hst, ?_, ?_⟩
        · intro s hs
          rcases List.mem_cons.mp hs with hhead | htail
          · subst hhead
            obtain ⟨out, hout⟩ := processStep_ok_store env root s acc evs acc2 hp
            subst hout
            exact hmono _ (by rw [mapLookup_insert_self]; rfl)
          · exact hall s htail
        · intro k hk
          obtain ⟨out, hout⟩ := processStep_ok_store env root step acc evs acc2 hp
          subst hout
          exact hmono k (mapLookup_insert_isSome acc step.name k out hk)

/-- C8: `Run` either succeeds with a complete result store (an entry for
every step) or returns an error with no result store at all — no outcome
carries a partial mapping of the steps completed before a failure. -/
theorem c8_all_or_nothing (env : WfEnv) (root : String) (doc : List WorkflowStep) :
    (∃ e, (runWorkflow env root doc).2 = (none, some e)) ∨
    (∃ st, (runWorkflow env root doc).2 = (some st, none) ∧
      ∀ s ∈ doc, (mapLookup st s.name).isSome) := by
  unfold runWorkflow
  split
  · exact Or.inl ⟨_, rfl⟩
  · rcases runSteps_complete_or_error env root doc [] with ⟨e, he⟩ | ⟨st, hst, hall, _⟩
    · exact Or.inl ⟨e, he⟩
    · exact Or.inr ⟨st, hst, hall⟩

theorem processStep_ok_events (env : WfEnv) (root : String) (step : WorkflowStep)
    (results : ResultStore) :
    ∀ evs st, processStep env root step results = (evs, .ok st) →
      WfEvent.ranFmu step.name ∈ evs ∧ WfEvent.recorded step.name ∈ evs ∧
      (step.resultPath ≠ "" →
        WfEvent.wroteResult step.name (resolvePath root step.resultPath) ∈ evs) := by
  intro evs st h
  unfold processStep at h
  repeat' split at h
  all_goals (try (exfalso; simp at h; done))
  all_goals
    (rw [Prod.mk.injEq] at h
     rcases h with ⟨h1, h2⟩
     subst h1
     refine ⟨by simp, by simp, fun hne => ?_⟩
     simp_all)

theorem processStep_invalid (env : WfEnv) (root : String) (step : WorkflowStep)
    (results : ResultStore)
    (hbad : step.name = "" ∨ (mapLookup results step.name).isSome = true ∨ step.fmu = "" ∨
      env.fmuOnDisk (resolvePath root step.fmu) = false ∨
      (∃ e, buildStartValues step results = .error e)) :
    ∃ e, processStep env root step results = ([], .error e) := by
  unfold processStep
  by_cases h1 : step.name = ""
  · rw [if_pos h1]; exact ⟨_, rfl⟩
  · rw [if_neg h1]
    by_cases h2 : (mapLookup results step.name).isSome = true
    · rw [if_pos h2]; exact ⟨_, rfl⟩
    · rw [if_neg h2]
      by_cases h3 : step.fmu = ""
      · rw [if_pos h3]; exact ⟨_, rfl⟩
      · rw [if_neg h3]
        by_cases h4 : env.fmuOnDisk (resolvePath root step.fmu) = false
        · rw [if_pos h4]; exact ⟨_, rfl⟩
        · rw [if_neg h4]
          rcases hbad with h | h | h | h | ⟨e, he⟩
          · exact absurd h h1
          · exact absurd h h2
          · exact absurd h h3
          · exact absurd h h4
          · rw [he]; exact ⟨_, rfl⟩

theorem runSteps_append_ok (env : WfEnv) (root : String) :
    ∀ (pre rest : List WorkflowStep) (acc st : ResultStore),
      (runSteps env root pre acc).2 = (some st, none) →
      runSteps env root (pre ++ rest) acc =
        ((runSteps env root pre acc).1 ++ (runSteps env root rest st).1,
         (runSteps env root rest st).2)
  | [], rest, acc, st, h => by
    simp only [runSteps] at h
    rcases h with ⟨⟩
    cases hs : runSteps env root rest acc
    simp [runSteps, hs]
  | step :: pre, rest, acc, st, h => by
    rcases hp : processStep env root step acc with ⟨evs0, r⟩
    rcases r with e | acc2
    · rw [runSteps_cons_error env root step pre acc evs0 e hp] at h
      simp at h
    · rw [runSteps_cons_ok env root step pre acc evs0 acc2 hp] at h
      rw [show (step :: pre) ++ rest = step :: (pre ++ rest) from rfl,
        runSteps_cons_ok env root step (pre ++ rest) acc evs0 acc2 hp,
        runSteps_append_ok env root pre rest acc2 st h,
        runSteps_cons_ok env root step pre acc evs0 acc2 hp]
      simp

theorem runSteps_ok_events (env : WfEnv) (root : String) :
    ∀ (pre : List WorkflowStep) (acc st : ResultStore),
      (runSteps env root pre acc).2 = (some st, none) →
      ∀ s ∈ pre, WfEvent.ranFmu s.name ∈ (runSteps env root pre acc).1 ∧
        WfEvent.recorded s.name ∈ (runSteps env root pre acc).1 ∧
        (s.resultPath ≠ "" →
          WfEvent.wroteResult s.name (resolvePath root s.resultPath) ∈
            (runSteps env root pre acc).1)
  | [], acc, st, _, s, hs => by simp at hs
  | step :: pre, acc, st, h, s, hs => by
    rcases hp : processStep env root step acc with ⟨evs0, r⟩
    rcases r with e | acc2
    · rw [runSteps_cons_error env root step pre acc evs0 e hp] at h
      simp at h
    · rw [runSteps_cons_ok env root step pre acc evs0 acc2 hp] at h ⊢
      rcases List.mem_cons.mp hs with hhead | htail
      · subst hhead
        obtain ⟨e1, e2, e3⟩ := processStep_ok_events env root s acc evs0 acc2 hp
        exact ⟨List.mem_append_left _ e1, List.mem_append_left _ e2,
          fun hne => List.mem_append_left _ (e3 hne)⟩
      · obtain ⟨e1, e2, e3⟩ := runSteps_ok_events env root pre acc2 st h s htail
        exact ⟨List.mem_append_right _ e1, List.mem_append_right _ e2,
          fun hne => List.mem_append_right _ (e3 hne)⟩

/-- C10: validation is interleaved with execution — when every step before
position `k` succeeds and the `k`-th step is invalid (empty name, duplicate
name, empty or missing FMU path, or unresolvable start values), the run
returns an error, but the trace already contains, for every earlier step, its
driver invocation, its result recording, and (when requested) its snapshot
write. -/
theorem c10_interleaved_validation (env : WfEnv) (root : String)
    (pre : List WorkflowStep) (k : WorkflowStep) (rest : List WorkflowStep) (st : ResultStore)
    (hpre : (runSteps env root pre []).2 = (some st, none))
    (hbad : k.name = "" ∨ (mapLookup st k.name).isSome = true ∨ k.fmu = "" ∨
      env.fmuOnDisk (resolvePath root k.fmu) = false ∨
      (∃ e, buildStartValues k st = .error e)) :
    (∃ e, (runWorkflow env root (pre ++ k :: rest)).2 = (none, some e)) ∧
    (runWorkflow env root (pre ++ k :: rest)).1 = (runSteps env root pre []).1 ∧
    ∀ s ∈ pre, WfEvent.ranFmu s.name ∈ (runSteps env root pre []).1 ∧
      WfEvent.recorded s.name ∈ (runSteps env root pre []).1 ∧
      (s.resultPath ≠ "" →
        WfEvent.wroteResult s.name (resolvePath root s.resultPath) ∈
          (runSteps env root pre []).1) := by
  obtain ⟨e, he⟩ := processStep_invalid env root k st hbad
  have hk : runSteps env root (k :: rest) st = ([], (none, some e)) :=
    runSteps_cons_error env root k rest st [] e he
  have hne : (pre ++ k :: rest).isEmpty = false := by
    cases pre <;> simp
  have happ := runSteps_append_ok env root pre (k :: rest) [] st hpre
  unfold runWorkflow
  rw [if_neg (by simp [hne]), happ, hk]
  refine ⟨⟨e, rfl⟩, by simp, runSteps_ok_events env root pre [] st hpre⟩

/-- C10 witness: a two-step document whose second step has an empty name;
the first step has fully executed before the error is returned. -/
theorem c10_interleaved_validation_witness :
    (∃ e, (runWorkflow envHappy "/r" ([stepA] ++ stepNoName :: [])).2 = (none, some e)) ∧
    (runWorkflow envHappy "/r" ([stepA] ++ stepNoName :: [])).1 =
      (runSteps envHappy "/r" [stepA] []).1 ∧
    ∀ s ∈ [stepA], WfEvent.ranFmu s.name ∈ (runSteps envHappy "/r" [stepA] []).1 ∧
      WfEvent.recorded s.name ∈ (runSteps envHappy "/r" [stepA] []).1 ∧
      (s.resultPath ≠ "" →
        WfEvent.wroteResult s.name (resolvePath "/r" s.resultPath) ∈
          (runSteps envHappy "/r" [stepA] []).1) :=
  c10_interleaved_validation envHappy "/r" [stepA] stepNoName []
    [("A", [("y", GoVal.strV "1")])] (by with_unfolding_all decide) (Or.inl rfl)

theorem charListLt_asymm : ∀ a b : List Char, charListLt a b = true → charListLt b a = false
  | [], [], h => by simp [charListLt] at h
  | [], _ :: _, _ => by simp [charListLt]
  | _ :: _, [], h => by simp [charListLt] at h
  | a :: as, b :: bs, h => by
    simp only [charListLt] at h ⊢
    by_cases hab : a < b
    · rw [if_neg (lt_asymm hab), if_pos hab]
    · rw [if_neg hab] at h
      by_cases hba : b < a
      · rw [if_pos hba] at h
        exact absurd h (by simp)
      · rw [if_neg hba] at h
        rw [if_neg hba, if_neg hab]
        exact charListLt_asymm as bs h

theorem charListLt_trans : ∀ a b c : List Char,
    charListLt a b = true → charListLt b c = true → charListLt a c = true
  | [], [], _, h1, _ => by simp [charListLt] at h1
  | [], _ :: _, [], _, h2 => by simp [charListLt] at h2
  | [], _ :: _, _ :: _, _, _ => by simp [charListLt]
  | _ :: _, [], _, h1, _ => by simp [charListLt] at h1
  | _ :: _, _ :: _, [], _, h2 => by simp [charListLt] at h2
  | a :: as, b :: bs, c :: cs, h1, h2 => by
    simp only [charListLt] at h1 h2 ⊢
    by_cases hab : a < b
    · by_cases hbc : b < c
      · rw [if_pos (lt_trans hab hbc)]
      · rw [if_neg hbc] at h2
        by_cases hcb : c < b
        · rw [if_pos hcb] at h2
          exact absurd h2 (by simp)
        · have hbceq : b = c := le_antisymm (not_lt.mp hcb) (not_lt.mp hbc)
          subst hbceq
          rw [if_pos hab]
    · rw [if_neg hab] at h1
      by_cases hba : b < a
      · rw [if_pos hba] at h1
        exact absurd h1 (by simp)
      · have habeq : a = b := le_antisymm (not_lt.mp hba) (not_lt.mp hab)
        subst habeq
        rw [if_neg hab] at h1
        by_cases hac : a < c
        · rw [if_pos hac]
        · rw [if_neg hac] at h2 ⊢
          by_cases hca : c < a
          · rw [if_pos hca] at h2
            exact absurd h2 (by simp)
          · rw [if_neg hca] at h2 ⊢
            exact charListLt_trans as bs cs h1 h2

theorem charListLt_antisymm : ∀ a b : List Char,
    charListLt a b = false → charListLt b a = false → a = b
  | [], [], _, _ => rfl
  | [], _ :: _, h1, _ => by simp [charListLt] at h1
  | _ :: _, [], _, h2 => by simp [charListLt] at h2
  | a :: as, b :: bs, h1, h2 => by
    simp only [charListLt] at h1 h2
    by_cases hab : a < b
    · rw [if_pos hab] at h1
      exact absurd h1 (by simp)
    · rw [if_neg hab] at h1
      by_cases hba : b < a
      · rw [if_pos hba] at h2
        exact absurd h2 (by simp)
      · have habeq : a = b := le_antisymm (not_lt.mp hba) (not_lt.mp hab)
        subst habeq
        rw [if_neg hab] at h1
        rw [if_neg hab, if_neg hab] at h2
        rw [charListLt_antisymm as bs h1 h2]

theorem strLeB_total (a b : String) : strLeB a b = true ∨ strLeB b a = true := by
  unfold strLeB strLtB
  by_cases h : charListLt b.data a.data = true
  · right
    simp [charListLt_asymm b.data a.data h]
  · left
    simp [Bool.not_eq_true] at h
    simp [h]

theorem strLeB_trans (a b c : String) (h1 : strLeB a b = true) (h2 : strLeB b c = true) :
    strLeB a c = true := by
  unfold strLeB strLtB at h1 h2 ⊢
  simp only [Bool.not_eq_true'] at h1 h2 ⊢
  by_cases hca : charListLt c.data a.data = true
  · by_cases hab : charListLt a.data b.data = true
    · rw [charListLt_trans c.data a.data b.data hca hab] at h2
      exact absurd h2 (by simp)
    · simp only [Bool.not_eq_true] at hab
      have : a.data = b.data := charListLt_antisymm a.data b.data hab h1
      rw [← this] at h2
      rw [h2] at hca
      exact absurd hca (by simp)
  · simpa using hca

theorem insertSorted_perm (x : String) : ∀ l : List String, List.Perm (insertSorted x l) (x :: l)
  | [] => List.Perm.refl _
  | y :: ys => by
    unfold insertSorted
    split
    · exact List.Perm.refl _
    · exact ((insertSorted_perm x ys).cons y).trans (List.Perm.swap x y ys)

theorem sortStrings_perm : ∀ l : List String, List.Perm (sortStrings l) l
  | [] => List.Perm.refl _
  | x :: xs => by
    show List.Perm (insertSorted x (sortStrings xs)) (x :: xs)
    exact (insertSorted_perm x (sortStrings xs)).trans ((sortStrings_perm xs).cons x)

theorem insertSorted_pairwise (x : String) :
    ∀ l : List String, List.Pairwise (fun a b => strLeB a b = true) l →
      List.Pairwise (fun a b => strLeB a b = true) (insertSorted x l)
  | [], _ => by simp [insertSorted]
  | y :: ys, h => by
    unfold insertSorted
    rcases List.pairwise_cons.mp h with ⟨hy, hys⟩
    split
    · next hxy =>
      refine List.pairwise_cons.mpr ⟨?_, h⟩
      intro z hz
      rcases List.mem_cons.mp hz with rfl | hzys
      · exact hxy
      · exact strLeB_trans x y z hxy (hy z hzys)
    · next hxy =>
      have hyx : strLeB y x = true := by
        rcases strLeB_total x y with h1 | h1
        · exact absurd h1 hxy
        · exact h1
      refine List.pairwise_cons.mpr ⟨?_, insertSorted_pairwise x ys hys⟩
      intro z hz
      have hz2 : z ∈ x :: ys := (insertSorted_perm x ys).mem_iff.mp hz
      rcases List.mem_cons.mp hz2 with rfl | hzys
      · exact hyx
      · exact hy z hzys

theorem sortStrings_pairwise : ∀ l : List String,
    List.Pairwise (fun a b => strLeB a b = true) (sortStrings l)
  | [] => by simp [sortStrings]
  | x :: xs => by
    show List.Pairwise _ (insertSorted x (sortStrings xs))
    exact insertSorted_pairwise x (sortStrings xs) (sortStrings_pairwise xs)

theorem mapLookup_insert_ne {α : Type} (m : List (String × α)) (k t : String) (v : α)
    (h : k ≠ t) : mapLookup (mapInsert m t v) k = mapLookup m k := by
  induction m with
  | nil =>
    simp only [mapInsert]
    rw [mapLookup_cons, if_neg (fun he => h he.symm)]
  | cons p rest ih =>
    rcases p with ⟨k2, v2⟩
    rw [mapInsert_cons]
    by_cases h2 : k2 = t
    · rw [if_pos h2, mapLookup_cons, if_neg (fun he => h he.symm), mapLookup_cons,
        if_neg (by rw [h2]; exact fun he => h he.symm)]
    · rw [if_neg h2, mapLookup_cons, mapLookup_cons, ih]

theorem mapLookup_none_iff {α : Type} :
    ∀ m : List (String × α), ∀ k : String, mapLookup m k = none ↔ k ∉ m.map Prod.fst
  | [], k => by simp [mapLookup, List.find?]
  | (k2, v2) :: rest, k => by
    rw [mapLookup_cons]
    by_cases h : k2 = k
    · simp [h]
    · rw [if_neg h]
      simp only [List.map_cons, List.mem_cons]
      rw [mapLookup_none_iff rest k]
      constructor
      · intro hn hc
        rcases hc with rfl | hc
        · exact h rfl
        · exact hn hc
      · intro hn
        exact fun hc => hn (Or.inr hc)

theorem encodeLiterals_lookup (sv : List (String × GoVal)) :
    ∀ (keys : List String) (acc lv : List (String × String)),
      encodeLiterals sv keys acc = .ok lv →
      ∀ k, mapLookup lv k =
        if k ∈ keys then (encodeScalar ((mapLookup sv k).getD .nullV)).toOption
        else mapLookup acc k
  | [], acc, lv, h, k => by
    simp only [encodeLiterals] at h
    cases h
    simp
  | k0 :: keys, acc, lv, h, k => by
    simp only [encodeLiterals] at h
    rcases henc : encodeScalar ((mapLookup sv k0).getD .nullV) with e | s0
    · rw [henc] at h
      exact absurd h (by simp)
    · rw [henc] at h
      have ih := encodeLiterals_lookup sv keys (mapInsert acc k0 s0) lv h k
      by_cases hk : k ∈ keys
      · rw [ih, if_pos hk, if_pos (List.mem_cons_of_mem k0 hk)]
      · rw [ih, if_neg hk]
        by_cases hk0 : k = k0
        · subst hk0
          rw [if_pos (List.mem_cons_self k keys), mapLookup_insert_self, henc]
          rfl
        · rw [if_neg (by simp [hk, hk0]), mapLookup_insert_ne acc k k0 s0 hk0]

theorem applyStartFrom_untouched (results : ResultStore) :
    ∀ (sf : List (String × String)) (acc m : List (String × String)),
      applyStartFrom results sf acc = .ok m →
      ∀ k, k ∉ sf.map Prod.fst → mapLookup m k = mapLookup acc k
  | [], acc, m, h, k, _ => by
    simp only [applyStartFrom] at h
    cases h
    rfl
  | (t0, r0) :: sf, acc, m, h, k, hk => by
    have hkt : k ≠ t0 := by
      intro he
      exact hk (by simp [he])
    have hks : k ∉ sf.map Prod.fst := fun hc => hk (by simp [hc])
    simp only [applyStartFrom] at h
    rcases hcut : cutDot r0 with _ | ⟨sn, v⟩
    · rw [hcut] at h
      exact absurd h (by simp)
    · rw [hcut] at h
      dsimp only [] at h
      split at h
      · exact absurd h (by simp)
      · rcases hsr : mapLookup results sn with _ | sr
        · rw [hsr] at h
          exact absurd h (by simp)
        · rw [hsr] at h
          dsimp only [] at h
          rcases hval : mapLookup sr v with _ | value
          · rw [hval] at h
            exact absurd h (by simp)
          · rw [hval] at h
            dsimp only [] at h
            rcases henc : encodeScalar value with e | s0
            · rw [henc] at h
              exact absurd h (by simp)
            · rw [henc] at h
              dsimp only [] at h
              rw [applyStartFrom_untouched results sf (mapInsert acc t0 s0) m h k hks,
                mapLookup_insert_ne acc k t0 s0 hkt]

theorem applyStartFrom_resolves (results : ResultStore) :
    ∀ (sf : List (String × String)) (acc m : List (String × String)),
      (sf.map Prod.fst).Nodup →
      applyStartFrom results sf acc = .ok m →
      ∀ t r, (t, r) ∈ sf → mapLookup m t = resolvedReference results r
  | [], acc, m, _, h, t, r, hm => by simp at hm
  | (t0, r0) :: sf, acc, m, hnd, h, t, r, hm => by
    simp only [applyStartFrom] at h
    rcases hcut : cutDot r0 with _ | ⟨sn, v⟩
    · rw [hcut] at h
      exact absurd h (by simp)
    · rw [hcut] at h
      dsimp only [] at h
      split at h
      · exact absurd h (by simp)
      · next hemp =>
        rcases hsr : mapLookup results sn with _ | sr
        · rw [hsr] at h
          exact absurd h (by simp)
        · rw [hsr] at h
          dsimp only [] at h
          rcases hval : mapLookup sr v with _ | value
          · rw [hval] at h
            exact absurd h (by simp)
          · rw [hval] at h
            dsimp only [] at h
            rcases henc : encodeScalar value with e | s0
            · rw [henc] at h
              exact absurd h (by simp)
            · rw [henc] at h
              dsimp only [] at h
              rcases List.mem_cons.mp hm with hhead | htail
              · rcases Prod.mk.injEq .. ▸ hhead with ⟨ht, hr⟩
                subst ht
                subst hr
                have hnotin : t ∉ sf.map Prod.fst := by
                  rw [List.map_cons, List.nodup_cons] at hnd
                  exact hnd.1
                rw [applyStartFrom_untouched results sf (mapInsert acc t s0) m h t hnotin,
                  mapLookup_insert_self]
                unfold resolvedReference
                rw [hcut]
                dsimp only []
                rw [if_neg hemp, hsr]
                dsimp only []
                rw [hval]
                dsimp only []
                rw [henc]
                rfl
              · exact applyStartFrom_resolves results sf (mapInsert acc t0 s0) m
                  (List.nodup_cons.mp hnd).2 h t r htail

theorem map_keys_lookup (d : String) :
    ∀ sv : List (String × String), (sv.map Prod.fst).Nodup →
      (sv.map Prod.fst).map (fun k => (k, (mapLookup sv k).getD d)) = sv
  | [], _ => rfl
  | (k0, v0) :: rest, hnd => by
    rw [List.map_cons, List.nodup_cons] at hnd
    rw [List.map_cons, List.map_cons, mapLookup_cons, if_pos rfl]
    have hcong : ∀ k ∈ rest.map Prod.fst,
        (fun k => (k, (mapLookup ((k0, v0) :: rest) k).getD d)) k =
          (fun k => (k, (mapLookup rest k).getD d)) k := by
      intro k hk
      have hne : k0 ≠ k := fun he => hnd.1 (he ▸ hk)
      simp only [mapLookup_cons, if_neg hne]
    rw [List.map_congr_left hcong, map_keys_lookup d rest hnd.2]
    rfl

theorem buildStartValues_destruct (step : WorkflowStep) (results : ResultStore)
    (m : List (String × String)) (hb : buildStartValues step results = .ok m) :
    ∃ acc, applyStartFrom results step.startFrom acc = .ok m ∧
      ((step.startValues.isEmpty ∧ acc = []) ∨
        encodeLiterals step.startValues (sortStrings (step.startValues.map Prod.fst)) [] =
          .ok acc) := by
  unfold buildStartValues at hb
  dsimp only [] at hb
  by_cases hemp : step.startValues.isEmpty
  · rw [if_pos hemp] at hb
    dsimp only [] at hb
    exact ⟨[], hb, Or.inl ⟨hemp, rfl⟩⟩
  · rw [if_neg hemp] at hb
    rcases hl : encodeLiterals step.startValues
        (sortStrings (step.startValues.map Prod.fst)) [] with e | lv
    · rw [hl] at hb
      exact absurd hb (by simp)
    · rw [hl] at hb
      dsimp only [] at hb
      exact ⟨lv, hb, Or.inr rfl⟩

theorem buildStartValues_literal_lookup (step : WorkflowStep) (results : ResultStore)
    (m : List (String × String)) (hb : buildStartValues step results = .ok m)
    (k : String) (hk : k ∉ step.startFrom.map Prod.fst) :
    mapLookup m k = literalText step.startValues k := by
  obtain ⟨acc, happ, hacc⟩ := buildStartValues_destruct step results m hb
  rw [applyStartFrom_untouched results step.startFrom acc m happ k hk]
  rcases hacc with ⟨hemp, rfl⟩ | hl
  · have hsv : step.startValues = [] := List.isEmpty_iff.mp hemp
    rw [hsv]
    rfl
  · rw [encodeLiterals_lookup step.startValues _ [] acc hl k]
    by_cases hmem : k ∈ step.startValues.map Prod.fst
    · have hmem2 : k ∈ sortStrings (step.startValues.map Prod.fst) :=
        ((sortStrings_perm _).mem_iff).mpr hmem
      rw [if_pos hmem2]
      rcases hlk : mapLookup step.startValues k with _ | v
      · exact absurd hmem (by rw [← mapLookup_none_iff step.startValues k]; exact hlk)
      · unfold literalText
        rw [hlk]
        rfl
    · have hmem2 : k ∉ sortStrings (step.startValues.map Prod.fst) :=
        fun hc => hmem (((sortStrings_perm _).mem_iff).mp hc)
      rw [if_neg hmem2]
      have hlk : mapLookup step.startValues k = none := (mapLookup_none_iff _ _).mpr hmem
      unfold literalText
      rw [hlk]
      rfl

theorem buildCConfigGoSlices_startValues (cfg : FmiConfig) :
    (buildCConfigGoSlices cfg).startValues =
      if cfg.startValues.isEmpty then []
      else (sortStrings (cfg.startValues.map Prod.fst)).map
        (fun k => (k, (mapLookup cfg.startValues k).getD "")) := by
  rcases cfg with ⟨p, st, sp, ss, sv, outs⟩
  unfold buildCConfigGoSlices zeroCConfig
  rcases st with _ | t1 <;> rcases sp with _ | t2 <;> rcases ss with _ | t3 <;>
    (dsimp only []
     by_cases hemp : sv.isEmpty
     · rw [if_pos hemp, if_pos hemp]
       split <;> rfl
     · rw [if_neg hemp, if_neg hemp]
       split <;> rfl)

/-- C7: when `buildStartValues` succeeds, every `start_from` target is bound
to the value its reference derives (overwriting any literal of that name);
every other key carries exactly its `start_values` literal encoding; and the
assignment sequence the cgo binding hands to `cads_run_fmu` is the merged map
in lexicographic key order. -/
theorem c7_binding_precedence (step : WorkflowStep) (results : ResultStore)
    (m : List (String × String))
    (hsf : (step.startFrom.map Prod.fst).Nodup)
    (hb : buildStartValues step results = .ok m) :
    (∀ t r, (t, r) ∈ step.startFrom → mapLookup m t = resolvedReference results r) ∧
    (∀ k, k ∉ step.startFrom.map Prod.fst → mapLookup m k = literalText step.startValues k) ∧
    (∀ cfg : FmiConfig,
      List.Pairwise (fun p q : String × String => strLeB p.1 q.1 = true)
        (buildCConfigGoSlices cfg).startValues) ∧
    (∀ cfg : FmiConfig, (cfg.startValues.map Prod.fst).Nodup →
      List.Perm (buildCConfigGoSlices cfg).startValues cfg.startValues) := by
  refine ⟨?_, fun k hk => buildStartValues_literal_lookup step results m hb k hk, ?_, ?_⟩
  · obtain ⟨acc, happ, _⟩ := buildStartValues_destruct step results m hb
    exact applyStartFrom_resolves results step.startFrom acc m hsf happ
  · intro cfg
    rw [buildCConfigGoSlices_startValues]
    split
    · exact List.Pairwise.nil
    · rw [List.pairwise_map]
      exact sortStrings_pairwise _
  · intro cfg hnd
    rw [buildCConfigGoSlices_startValues]
    split
    · next hemp =>
      rw [List.isEmpty_iff.mp hemp]
    · refine ((sortStrings_perm _).map _).trans ?_
      rw [map_keys_lookup "" cfg.startValues hnd]

/-- C7 witness: a step whose key `x` appears both as a literal and as a
`start_from` target; the derived binding wins, the untouched key `a` keeps
its literal, and the lowered assignment sequence is sorted. -/
theorem c7_binding_precedence_witness :
    mapLookup [("a", "1"), ("x", "9")] "x" =
      resolvedReference [("P", [("y", GoVal.strV "9")])] "P.y" ∧
    mapLookup [("a", "1"), ("x", "9")] "a" =
      literalText [("a", GoVal.strV "1"), ("x", GoVal.strV "2")] "a" ∧
    List.Pairwise (fun p q : String × String => strLeB p.1 q.1 = true)
      (buildCConfigGoSlices ⟨"f", none, none, none, [("b", "2"), ("a", "1")], []⟩).startValues ∧
    List.Perm
      (buildCConfigGoSlices ⟨"f", none, none, none, [("b", "2"), ("a", "1")], []⟩).startValues
      [("b", "2"), ("a", "1")] :=
  have h := c7_binding_precedence
    ⟨"S", "f", [], none, none, none, "",
      [("a", GoVal.strV "1"), ("x", GoVal.strV "2")], [("x", "P.y")]⟩
    [("P", [("y", GoVal.strV "9")])] [("a", "1"), ("x", "9")]
    (by with_unfolding_all decide) (by with_unfolding_all decide)
  ⟨h.1 "x" "P.y" (by with_unfolding_all decide),
   h.2.1 "a" (by with_unfolding_all decide),
   h.2.2.1 ⟨"f", none, none, none, [("b", "2"), ("a", "1")], []⟩,
   h.2.2.2 ⟨"f", none, none, none, [("b", "2"), ("a", "1")], []⟩ (by with_unfolding_all decide)⟩

end CadsFmi
